import Mathlib

/-!
# Verification of the customrouter route pipeline

A shallow embedding, in Lean 4, of the route-expansion, lookup, admission
and partitioning code of the `customrouter` repository
(`pkg/routes`, `internal/extproc`, `internal/webhook`,
`internal/controller/customhttproute`), together with theorems settling the
spec claims about it.

Go strings are modelled as `List Char` (`GoStr`); all inputs of interest are
ASCII, where Go's byte-wise operations and Lean's character lists agree.
Go maps materialised from association lists are modelled as association
lists with `List.lookup`.
-/

set_option maxHeartbeats 1000000

namespace CR

/-- Go strings, modelled as lists of characters. -/
abbrev GoStr := List Char

/-- Convenience: turn a Lean string literal into a `GoStr`. -/
def str (s : String) : GoStr := s.data

/-- `strings.HasPrefix(s, pre)`. -/
def goHasPrefix (s pre : GoStr) : Bool := pre.isPrefixOf s

/-- `strings.HasSuffix(s, suf)`. -/
def goHasSuffix (s suf : GoStr) : Bool := suf.isSuffixOf s

/-- `strings.Contains(s, sub)`: `sub` occurs as a contiguous substring of `s`. -/
def goContains : GoStr → GoStr → Bool
  | [], sub => sub.isEmpty
  | s@(_ :: rest), sub => sub.isPrefixOf s || goContains rest sub

/-- `strings.Join(elems, sep)`. -/
def goJoin (sep : GoStr) : List GoStr → GoStr
  | [] => []
  | [x] => x
  | x :: xs => x ++ sep ++ goJoin sep xs

/-- Fuelled worker for `goReplaceAll`; the fuel bounds the number of scan
steps (each step shortens the string, so `s.length` fuel is enough). -/
def goReplaceAllF : Nat → GoStr → GoStr → GoStr → GoStr
  | 0, s, _, _ => s
  | fuel + 1, s, pat, rep =>
    match s with
    | [] => []
    | c :: rest =>
      if pat ≠ [] ∧ pat.isPrefixOf (c :: rest) = true then
        rep ++ goReplaceAllF fuel ((c :: rest).drop pat.length) pat rep
      else
        c :: goReplaceAllF fuel rest pat rep

/-- `strings.ReplaceAll(s, old, new)` for a non-empty pattern `old`
(the code never calls it with an empty pattern). -/
def goReplaceAll (s pat rep : GoStr) : GoStr := goReplaceAllF s.length s pat rep

/-- Go's byte-wise `<` on strings (lexicographic; code points, which agrees
with bytes on ASCII). -/
def goStrLt : GoStr → GoStr → Bool
  | [], [] => false
  | [], _ :: _ => true
  | _ :: _, [] => false
  | a :: as, b :: bs => if a < b then true else if b < a then false else goStrLt as bs

/-- `strings.ToLower` (ASCII folding suffices for the header names involved). -/
def goToLower (s : GoStr) : GoStr := s.map Char.toLower

/-- `strings.EqualFold` on ASCII strings. -/
def goEqualFold (a b : GoStr) : Bool := goToLower a == goToLower b

/-- `strconv.Itoa` for the (always in-range) int32 values that reach it. -/
def goItoa (n : Int) : GoStr := (toString n).data

/-! ## The API types (`api/v1alpha1`)

Enum-valued string types are modelled as inductives: the CRD schema restricts
each of them to the listed constants (`+kubebuilder:validation:Enum`). -/

/-- `v1alpha1.PathPrefixPolicy` (enum `Optional | Required | Disabled`). -/
inductive PathPrefixPolicy where
  | optional
  | required
  | disabled
deriving DecidableEq, Repr

/-- `v1alpha1.MatchType` (enum `PathPrefix | Exact | Regex`). -/
inductive MatchType where
  | pathPrefix
  | exact
  | regex
deriving DecidableEq, Repr

/-- `v1alpha1.ActionType` (enum `redirect | rewrite | header-set | header-add
| header-remove`). -/
inductive ActionType where
  | redirect
  | rewrite
  | headerSet
  | headerAdd
  | headerRemove
deriving DecidableEq, Repr

/-- `v1alpha1.PathPrefixes`. The `Policy` field is an `omitempty` string;
`none` models the empty string, `some p` a set enum value. -/
structure PathPrefixes where
  values : List GoStr
  policy : Option PathPrefixPolicy
  expandMatchTypes : List MatchType
deriving DecidableEq, Repr

/-- `v1alpha1.RulePathPrefixes`: the rule-level override; its `policy` field
is `+required` and enum-validated. -/
structure RulePathPrefixes where
  policy : PathPrefixPolicy
  expandMatchTypes : List MatchType
deriving DecidableEq, Repr

/-- `v1alpha1.PathMatch`. `priority` is an `int32`, modelled as `Int`. -/
structure PathMatch where
  path : GoStr
  ty : MatchType
  priority : Int
deriving DecidableEq, Repr

/-- `v1alpha1.BackendRef`. -/
structure BackendRef where
  name : GoStr
  ns : GoStr
  port : Int
deriving DecidableEq, Repr

/-- `v1alpha1.RewriteConfig`. -/
structure RewriteConfig where
  path : GoStr
  replacePrefixMatch : Option Bool
  hostname : GoStr
deriving DecidableEq, Repr

/-- `v1alpha1.RedirectConfig`. `port` is a `*int32`. -/
structure RedirectConfig where
  scheme : GoStr
  hostname : GoStr
  path : GoStr
  port : Option Int
  statusCode : Int
deriving DecidableEq, Repr

/-- `v1alpha1.HeaderConfig`. -/
structure HeaderConfig where
  name : GoStr
  value : GoStr
deriving DecidableEq, Repr

/-- `v1alpha1.Action`: a `type` discriminator plus optional payload structs. -/
structure Action where
  ty : ActionType
  redirect : Option RedirectConfig
  rewrite : Option RewriteConfig
  header : Option HeaderConfig
  headerName : GoStr
deriving DecidableEq, Repr

/-- `v1alpha1.Rule`. -/
structure Rule where
  matches_ : List PathMatch
  actions : List Action
  backendRefs : List BackendRef
  pathPrefixes : Option RulePathPrefixes
deriving DecidableEq, Repr

/-- A `v1alpha1.CustomHTTPRoute` together with the object metadata the
controller and webhook read (`Namespace`, `UID`,
`DeletionTimestamp.IsZero()` as `deleting`). -/
structure CustomHTTPRoute where
  ns : GoStr
  uid : Nat
  deleting : Bool
  targetName : GoStr
  hostnames : List GoStr
  pathPrefixes : Option PathPrefixes
  rules : List Rule
deriving DecidableEq, Repr

/-- `v1alpha1.DefaultPriority`. -/
def DefaultPriority : Int := 1000

/-! ## The `pkg/routes` types -/

/-- `routes.Route`'s `Type` field (string constants `"exact"`, `"prefix"`,
`"regex"`; `getMatchType` only ever produces these three). -/
inductive RouteType where
  | exact
  | pfx
  | rgx
deriving DecidableEq, Repr

/-- `routes.RouteAction`: the flattened action row stored in the table.
Field layout follows `convertActions` (type discriminator plus the
variant-specific fields it fills in). -/
structure RouteAction where
  ty : ActionType
  redirectScheme : GoStr := []
  redirectHostname : GoStr := []
  redirectPath : GoStr := []
  redirectPort : Int := 0
  redirectStatusCode : Int := 0
  rewritePath : GoStr := []
  rewriteHostname : GoStr := []
  rewriteReplacePrefixMatch : Option Bool := none
  headerName : GoStr := []
  value : GoStr := []
deriving DecidableEq, Repr

/-- `routes.Route`: one flattened table row. -/
structure Route where
  path : GoStr
  ty : RouteType
  backend : GoStr
  priority : Int
  actions : List RouteAction
deriving DecidableEq, Repr

/-- `routes.RoutesConfig`: the ConfigMap payload; the Go `map[string][]Route`
is modelled as an association list. -/
structure RoutesConfig where
  version : Int
  hosts : List (GoStr × List Route)
deriving DecidableEq, Repr

/-! ## `pkg/routes`: matcher and lookup (`types.go`, `loader.go`)

Go's `regexp` engine is abstracted as a parameter `rmatch pattern path`
standing for `regexp.MustCompile(pattern).MatchString(path)` (the loader
pre-compiles each regex row's pattern; `Route.Match` runs it). -/

/-- `Route.Match(path)`. -/
def Route.rmatches (rmatch : GoStr → GoStr → Bool) (r : Route) (path : GoStr) : Bool :=
  match r.ty with
  | .exact => path == r.path
  | .pfx => goHasPrefix path r.path
  | .rgx => rmatch r.path path

/-- The port-stripping step of `Loader.FindRoute`:
`if idx := strings.Index(host, ":"); idx != -1 { host = host[:idx] }`. -/
def stripHostPort (host : GoStr) : GoStr := host.takeWhile (fun c => c ≠ ':')

/-- The matching loop of `Loader.FindRoute`: first route whose `Match` is
true wins (routes are already sorted). -/
def findRouteLoop (rmatch : GoStr → GoStr → Bool) (routes : List Route) (path : GoStr) :
    Option Route :=
  match routes with
  | [] => none
  | r :: rest => if r.rmatches rmatch path then some r else findRouteLoop rmatch rest path

/-- `Loader.FindRoute(host, path)` (identical in `K8sLoader.FindRoute`):
strip a port from the host, look the host up in the table, scan its route
list for the first match. -/
def FindRoute (rmatch : GoStr → GoStr → Bool) (hosts : List (GoStr × List Route))
    (host path : GoStr) : Option Route :=
  let h := stripHostPort host
  match hosts.lookup h with
  | none => none
  | some routes => findRouteLoop rmatch routes path

/-! ## `pkg/routes`: the expander (`expand.go`, the version with
`shouldExpandMatchType`) -/

/-- `getEffectivePolicy`: rule-level override, then non-empty spec-level
policy, then the `Optional` default. -/
def getEffectivePolicy (specPrefixes : Option PathPrefixes) (rule : Rule) :
    PathPrefixPolicy :=
  match rule.pathPrefixes with
  | some rp => rp.policy
  | none =>
    match specPrefixes with
    | some sp => sp.policy.getD .optional
    | none => .optional

/-- `getEffectiveExpandMatchTypes`: rule-level override if non-empty, then
spec-level if non-empty, else `nil` (= all types expanded). -/
def getEffectiveExpandMatchTypes (specPrefixes : Option PathPrefixes) (rule : Rule) :
    List MatchType :=
  match rule.pathPrefixes with
  | some rp =>
    if rp.expandMatchTypes.length > 0 then rp.expandMatchTypes
    else
      match specPrefixes with
      | some sp => if sp.expandMatchTypes.length > 0 then sp.expandMatchTypes else []
      | none => []
  | none =>
    match specPrefixes with
    | some sp => if sp.expandMatchTypes.length > 0 then sp.expandMatchTypes else []
    | none => []

/-- `shouldExpandMatchType`: empty list means expand everything. -/
def shouldExpandMatchType (matchType : MatchType) (expandTypes : List MatchType) : Bool :=
  if expandTypes.length = 0 then true
  else expandTypes.contains matchType

/-- `getMatchType`: the API enum mapped to the table's string constants
(`default:` is `"prefix"`). -/
def getMatchType (t : MatchType) : RouteType :=
  match t with
  | .exact => .exact
  | .regex => .rgx
  | .pathPrefix => .pfx

/-- `getEffectivePriority`: `0` means unset and becomes `DefaultPriority`. -/
def getEffectivePriority (priority : Int) : Int :=
  if priority = 0 then DefaultPriority else priority

/-- `buildBackendString`: first backend ref; a dotted name is an external
host, otherwise `name.namespace.svc.cluster.local:port`. -/
def buildBackendString (refs : List BackendRef) : GoStr :=
  match refs with
  | [] => []
  | ref :: _ =>
    if goContains ref.name (str ".") then
      ref.name ++ str ":" ++ goItoa ref.port
    else
      ref.name ++ str "." ++ ref.ns ++ str ".svc.cluster.local:" ++ goItoa ref.port

/-- `convertActions`: API actions flattened into `RouteAction` rows
(`nil` payload structs leave the row's fields at their zero values;
a zero redirect status code defaults to 302). -/
def convertActions (apiActions : List Action) : List RouteAction :=
  apiActions.map fun a =>
    match a.ty with
    | .redirect =>
      match a.redirect with
      | some rc =>
        { ty := a.ty
          redirectScheme := rc.scheme
          redirectHostname := rc.hostname
          redirectPath := rc.path
          redirectPort := (rc.port.getD 0)
          redirectStatusCode := if rc.statusCode = 0 then 302 else rc.statusCode }
      | none => { ty := a.ty }
    | .rewrite =>
      match a.rewrite with
      | some rw =>
        { ty := a.ty
          rewritePath := rw.path
          rewriteHostname := rw.hostname
          rewriteReplacePrefixMatch := rw.replacePrefixMatch }
      | none => { ty := a.ty }
    | .headerSet =>
      match a.header with
      | some h => { ty := a.ty, headerName := h.name, value := h.value }
      | none => { ty := a.ty }
    | .headerAdd =>
      match a.header with
      | some h => { ty := a.ty, headerName := h.name, value := h.value }
      | none => { ty := a.ty }
    | .headerRemove => { ty := a.ty, headerName := a.headerName }

/-- `expandRegexWithPrefixes`: insert the language-alternation group into a
regex pattern.  A `{prefix}` sentinel is substituted in place; otherwise the
group is inserted after an optional `^` anchor, and only when the remaining
pattern is rooted at `/`. -/
def expandRegexWithPrefixes (pattern : GoStr) (prefixes : List GoStr)
    (policy : PathPrefixPolicy) : GoStr :=
  if policy = .disabled || prefixes.length = 0 then pattern
  else
    let langGroup := str "(" ++ goJoin (str "|") prefixes ++ str ")"
    if goContains pattern (str "\x7bprefix\x7d") then
      match policy with
      | .required => goReplaceAll pattern (str "\x7bprefix\x7d") langGroup
      | .optional => goReplaceAll pattern (str "\x7bprefix\x7d") (langGroup ++ str "?")
      | .disabled => pattern
    else
      let hasStartAnchor := goHasPrefix pattern (str "^")
      let workPattern := if hasStartAnchor then pattern.drop 1 else pattern
      if !goHasPrefix workPattern (str "/") then pattern
      else
        match policy with
        | .required =>
          (if hasStartAnchor then str "^" else []) ++ (str "/" ++ langGroup) ++ workPattern
        | .optional =>
          (if hasStartAnchor then str "^" else []) ++
            (str "(?:/" ++ langGroup ++ str ")?") ++ workPattern
        | .disabled => pattern

/-- The body of `expandRule`'s `for _, match := range rule.Matches` loop:
the routes emitted for one match (the loop only ever appends, so the loop
is the concatenation of its per-match emissions). -/
def expandMatchRoutes (policy : PathPrefixPolicy) (expandTypes : List MatchType)
    (prefixes : List GoStr) (backend : GoStr) (actions : List RouteAction)
    (m : PathMatch) : List Route :=
  let matchType := getMatchType m.ty
  let priority := getEffectivePriority m.priority
  if !shouldExpandMatchType m.ty expandTypes then
    [{ path := m.path, ty := matchType, backend := backend, priority := priority,
       actions := actions }]
  else if m.ty = .regex then
    [{ path := expandRegexWithPrefixes m.path prefixes policy, ty := matchType,
       backend := backend, priority := priority, actions := actions }]
  else
    match policy with
    | .disabled =>
      [{ path := m.path, ty := matchType, backend := backend, priority := priority,
         actions := actions }]
    | .required =>
      prefixes.map fun p =>
        { path := str "/" ++ p ++ m.path, ty := matchType, backend := backend,
          priority := priority, actions := actions }
    | .optional =>
      (prefixes.map fun p =>
        { path := str "/" ++ p ++ m.path, ty := matchType, backend := backend,
          priority := priority, actions := actions }) ++
      [{ path := m.path, ty := matchType, backend := backend, priority := priority,
         actions := actions }]

/-- The prefix values drawn from the spec-level config
(`if specPrefixes != nil { prefixes = specPrefixes.Values }`). -/
def specValues (specPrefixes : Option PathPrefixes) : List GoStr :=
  match specPrefixes with
  | some sp => sp.values
  | none => []

/-- `expandRule`: expand a single rule into routes, one emission per match. -/
def expandRule (specPrefixes : Option PathPrefixes) (rule : Rule) : List Route :=
  (rule.matches_.map (expandMatchRoutes (getEffectivePolicy specPrefixes rule)
    (getEffectiveExpandMatchTypes specPrefixes rule) (specValues specPrefixes)
    (buildBackendString rule.backendRefs) (convertActions rule.actions))).flatten



/-! ## Claim-side definitions and theorems: expansion and lookup -/

/-- The route list that claim C3 predicts for one eligible Exact/Prefix
match: Disabled keeps the literal pattern, Required emits one
`"/" + p + pattern` route per prefix value (in list order), Optional emits
the Required set plus the literal route; every route carries the match's
kind, its effective priority, and the rule's backend and action list. -/
def claimedExpansion (policy : PathPrefixPolicy) (values : List GoStr)
    (backend : GoStr) (actions : List RouteAction) (m : PathMatch) : List Route :=
  let literal : Route :=
    { path := m.path, ty := getMatchType m.ty, backend := backend,
      priority := getEffectivePriority m.priority, actions := actions }
  let prefixed : List Route := values.map fun p => { literal with path := str "/" ++ p ++ m.path }
  match policy with
  | .disabled => [literal]
  | .required => prefixed
  | .optional => prefixed ++ [literal]

theorem expandMatchRoutes_eq_claimed (policy : PathPrefixPolicy)
    (expandTypes : List MatchType) (values : List GoStr) (backend : GoStr)
    (actions : List RouteAction) (m : PathMatch)
    (hkind : m.ty = .exact ∨ m.ty = .pathPrefix)
    (helig : shouldExpandMatchType m.ty expandTypes = true) :
    expandMatchRoutes policy expandTypes values backend actions m =
      claimedExpansion policy values backend actions m := by
  have hne : ¬ m.ty = .regex := by rcases hkind with h | h <;> simp [h]
  cases policy <;>
    simp [expandMatchRoutes, claimedExpansion, helig, hne]

/-- **C3.** For a rule all of whose matches are of kind Exact or Prefix and
eligible for prefix expansion (per the effective `expandMatchTypes`),
`expandRule` emits, per match and in match order, exactly the route list of
`claimedExpansion`: Disabled one literal route; Required one
`"/" + p + pattern` route per prefix value, in value order, and no literal
route; Optional the Required set plus one literal route — each route
carrying the match's kind, its effective priority, and the rule's backend
and action list. -/
theorem C3_exact_prefix_expansion (sp : Option PathPrefixes) (rule : Rule)
    (helig : ∀ m ∈ rule.matches_, (m.ty = .exact ∨ m.ty = .pathPrefix) ∧
      shouldExpandMatchType m.ty (getEffectiveExpandMatchTypes sp rule) = true) :
    expandRule sp rule =
      (rule.matches_.map (claimedExpansion (getEffectivePolicy sp rule)
        (specValues sp)
        (buildBackendString rule.backendRefs)
        (convertActions rule.actions))).flatten := by
  unfold expandRule
  congr 1
  refine List.map_congr_left fun m hm => ?_
  exact expandMatchRoutes_eq_claimed _ _ _ _ _ m (helig m hm).1 (helig m hm).2

/-- Witness for C3: the spec's scenario S2 with Required policy — prefixes
`[es, fr]`, one `(Prefix, /api)` match — expands to `/es/api`, `/fr/api`. -/
theorem C3_exact_prefix_expansion_witness :
    (∀ m ∈ (Rule.mk [PathMatch.mk (str "/api") .pathPrefix 0] [] [BackendRef.mk (str "svc") (str "ns") 80] none).matches_,
        (m.ty = .exact ∨ m.ty = .pathPrefix) ∧
        shouldExpandMatchType m.ty
          (getEffectiveExpandMatchTypes
            (some (PathPrefixes.mk [str "es", str "fr"] (some .required) []))
            (Rule.mk [PathMatch.mk (str "/api") .pathPrefix 0] [] [BackendRef.mk (str "svc") (str "ns") 80] none)) = true) ∧
    expandRule (some (PathPrefixes.mk [str "es", str "fr"] (some .required) []))
        (Rule.mk [PathMatch.mk (str "/api") .pathPrefix 0] [] [BackendRef.mk (str "svc") (str "ns") 80] none) =
      ((Rule.mk [PathMatch.mk (str "/api") .pathPrefix 0] [] [BackendRef.mk (str "svc") (str "ns") 80] none).matches_.map
        (claimedExpansion
          (getEffectivePolicy (some (PathPrefixes.mk [str "es", str "fr"] (some .required) []))
            (Rule.mk [PathMatch.mk (str "/api") .pathPrefix 0] [] [BackendRef.mk (str "svc") (str "ns") 80] none))
          (specValues (some (PathPrefixes.mk [str "es", str "fr"] (some .required) [])))
          (buildBackendString [BackendRef.mk (str "svc") (str "ns") 80])
          (convertActions []))).flatten :=
  ⟨by decide, C3_exact_prefix_expansion _ _ (by decide)⟩

theorem mem_expandMatchRoutes_priority (policy : PathPrefixPolicy)
    (expandTypes : List MatchType) (values : List GoStr) (backend : GoStr)
    (actions : List RouteAction) (m : PathMatch) (r : Route)
    (hr : r ∈ expandMatchRoutes policy expandTypes values backend actions m) :
    r.priority = getEffectivePriority m.priority := by
  unfold expandMatchRoutes at hr
  split at hr
  · simp at hr; subst hr; rfl
  · split at hr
    · simp at hr; subst hr; rfl
    · split at hr
      · simp at hr; subst hr; rfl
      · simp only [List.mem_map] at hr
        obtain ⟨p, _, rfl⟩ := hr; rfl
      · simp only [List.mem_append, List.mem_map, List.mem_singleton] at hr
        rcases hr with ⟨p, _, rfl⟩ | rfl <;> rfl

/-- **C10.** Expansion never emits a route of priority 0: each route's
priority comes from its source match's priority via `getEffectivePriority`,
which maps 0 (unset) to `DefaultPriority = 1000` and passes every other
value — negative values included — through unchanged. -/
theorem C10_no_zero_priority (sp : Option PathPrefixes) (rule : Rule) (r : Route)
    (hr : r ∈ expandRule sp rule) :
    (∃ m ∈ rule.matches_,
        r.priority = if m.priority = 0 then DefaultPriority else m.priority) ∧
    r.priority ≠ 0 := by
  unfold expandRule at hr
  simp only [List.mem_flatten, List.mem_map] at hr
  obtain ⟨l, ⟨m, hm, rfl⟩, hrl⟩ := hr
  have hpr := mem_expandMatchRoutes_priority _ _ _ _ _ _ _ hrl
  refine ⟨⟨m, hm, by rw [hpr]; rfl⟩, ?_⟩
  rw [hpr]
  unfold getEffectivePriority DefaultPriority
  split
  · omega
  · assumption

/-- Witness for C10: a match with unset (0) priority and one with a negative
priority; the expanded head route has nonzero priority. -/
theorem C10_no_zero_priority_witness :
    ((Route.mk (str "/neg") RouteType.exact [] (-7) []) ∈
        expandRule (none : Option PathPrefixes) (Rule.mk [PathMatch.mk (str "/neg") .exact (-7)] [] [] none)) ∧
    ((∃ m ∈ (Rule.mk [PathMatch.mk (str "/neg") .exact (-7)] [] [] none).matches_,
        (Route.mk (str "/neg") RouteType.exact [] (-7) []).priority =
          if m.priority = 0 then DefaultPriority else m.priority) ∧
      (Route.mk (str "/neg") RouteType.exact [] (-7) []).priority ≠ 0) :=
  ⟨by decide, C10_no_zero_priority (none : Option PathPrefixes) _ _ (by decide)⟩

theorem findRouteLoop_eq_find? (rmatch : GoStr → GoStr → Bool)
    (routes : List Route) (path : GoStr) :
    findRouteLoop rmatch routes path = routes.find? (fun r => r.rmatches rmatch path) := by
  induction routes with
  | nil => rfl
  | cons r rest ih =>
    by_cases h : r.rmatches rmatch path = true
    · simp [findRouteLoop, List.find?, h]
    · simp only [Bool.not_eq_true] at h
      simp [findRouteLoop, List.find?, h, ih]

/-- **C1.** `FindRoute(host, path)` strips everything from the first `:` of
the host, looks the stripped host up in the per-host table, and returns the
first stored route whose `Match(path)` is true (`List.find?`), or `none`
when the host is absent or no route matches; `Match` compares path equality
for Exact rows, string-prefix for Prefix rows, and runs the compiled
pattern for Regex rows. -/
theorem C1_findRoute_first_match (rmatch : GoStr → GoStr → Bool)
    (hosts : List (GoStr × List Route)) (host path : GoStr) :
    FindRoute rmatch hosts host path =
      ((hosts.lookup (host.takeWhile (fun c => c ≠ ':'))).getD []).find?
        (fun r => r.rmatches rmatch path) ∧
    (∀ r : Route, r.ty = .exact → r.rmatches rmatch path = (path == r.path)) ∧
    (∀ r : Route, r.ty = .pfx → r.rmatches rmatch path = goHasPrefix path r.path) ∧
    (∀ r : Route, r.ty = .rgx → r.rmatches rmatch path = rmatch r.path path) := by
  refine ⟨?_, ?_, ?_, ?_⟩
  · simp only [FindRoute, stripHostPort]
    cases hlk : hosts.lookup (host.takeWhile (fun c => c ≠ ':')) with
    | none => simp [hlk]
    | some routes => simp [hlk, findRouteLoop_eq_find?]
  all_goals intro r h; simp [Route.rmatches, h]

/-! ## A model of Go's regexp engine (RE2 subset)

`expandRegexWithPrefixes` inputs and outputs use a small regex vocabulary:
literals, character classes, `.`, grouping `(...)`/`(?:...)`, alternation,
the postfix operators `+ * ?`, and the `^`/`$` anchors.  We model matching
for exactly that vocabulary: an AST with Brzozowski-derivative matching, and
a parser from pattern text.  `goRegexMatchString pattern s` models
`regexp.MustCompile(pattern).MatchString(s)` (Go's match-anywhere
semantics: the pattern is wrapped with `.*` on each unanchored side). -/

/-- Regular-expression AST. `cls []` is the empty (void) language. -/
inductive RE where
  | eps
  | lit (c : Char)
  | cls (ranges : List (Char × Char))
  | anyc
  | cat (a b : RE)
  | alt (a b : RE)
  | star (a : RE)
deriving DecidableEq, Repr

def RE.isVoid : RE → Bool
  | .cls [] => true
  | _ => false

/-- Smart concatenation (keeps derivatives small). -/
def RE.scat (a b : RE) : RE :=
  if a.isVoid || b.isVoid then .cls []
  else if a = .eps then b
  else if b = .eps then a
  else .cat a b

/-- Smart alternation (keeps derivatives small). -/
def RE.salt (a b : RE) : RE :=
  if a.isVoid then b
  else if b.isVoid then a
  else .alt a b

def RE.nullable : RE → Bool
  | .eps => true
  | .lit _ => false
  | .cls _ => false
  | .anyc => false
  | .cat a b => a.nullable && b.nullable
  | .alt a b => a.nullable || b.nullable
  | .star _ => true

def RE.deriv : RE → Char → RE
  | .eps, _ => .cls []
  | .lit c, x => if c = x then .eps else .cls []
  | .cls rs, x => if rs.any (fun r => r.1 ≤ x && x ≤ r.2) then .eps else .cls []
  | .anyc, _ => .eps
  | .cat a b, x =>
    if a.nullable then RE.salt (RE.scat (a.deriv x) b) (b.deriv x)
    else RE.scat (a.deriv x) b
  | .alt a b, x => RE.salt (a.deriv x) (b.deriv x)
  | .star a, x => RE.scat (a.deriv x) (.star a)

/-- Whole-string match by derivative folding. -/
def RE.matchFull (r : RE) (s : GoStr) : Bool := (s.foldl RE.deriv r).nullable

/-- Parse the items of a character class, up to the closing `]`. -/
def parseClassItems : Nat → GoStr → Option (List (Char × Char) × GoStr)
  | 0, _ => none
  | _ + 1, [] => none
  | _ + 1, ']' :: rest => some ([], rest)
  | fuel + 1, c :: '-' :: d :: rest =>
    if d = ']' then some ([(c, c), ('-', '-')], rest)
    else (parseClassItems fuel rest).map fun p => ((c, d) :: p.1, p.2)
  | fuel + 1, c :: rest => (parseClassItems fuel rest).map fun p => ((c, c) :: p.1, p.2)

mutual

/-- Alternation level: `concat ('|' concat)*`. -/
def parseRAlt : Nat → GoStr → Option (RE × GoStr)
  | 0, _ => none
  | fuel + 1, s => do
    let (r, rest) ← parseRCat fuel s
    parseRAltRest fuel r rest

def parseRAltRest : Nat → RE → GoStr → Option (RE × GoStr)
  | 0, _, _ => none
  | fuel + 1, acc, '|' :: s => do
    let (r, rest) ← parseRCat fuel s
    parseRAltRest fuel (RE.alt acc r) rest
  | _ + 1, acc, s => some (acc, s)

/-- Concatenation level: a sequence of repeated atoms. -/
def parseRCat : Nat → GoStr → Option (RE × GoStr)
  | 0, _ => none
  | _ + 1, [] => some (.eps, [])
  | _ + 1, ')' :: s => some (.eps, ')' :: s)
  | _ + 1, '|' :: s => some (.eps, '|' :: s)
  | fuel + 1, s => do
    let (r, rest) ← parseRRep fuel s
    let (r2, rest2) ← parseRCat fuel rest
    some (if r2 = .eps then r else .cat r r2, rest2)

/-- An atom with an optional postfix `+`, `*` or `?`. -/
def parseRRep : Nat → GoStr → Option (RE × GoStr)
  | 0, _ => none
  | fuel + 1, s => do
    let (r, rest) ← parseRAtom fuel s
    match rest with
    | '+' :: rest2 => some (.cat r (.star r), rest2)
    | '*' :: rest2 => some (.star r, rest2)
    | '?' :: rest2 => some (.alt r .eps, rest2)
    | _ => some (r, rest)

/-- Atoms: groups (capturing or `(?:...)`), classes, `.`, literals. -/
def parseRAtom : Nat → GoStr → Option (RE × GoStr)
  | 0, _ => none
  | fuel + 1, '(' :: '?' :: ':' :: s => do
    let (r, rest) ← parseRAlt fuel s
    match rest with
    | ')' :: rest2 => some (r, rest2)
    | _ => none
  | fuel + 1, '(' :: s => do
    let (r, rest) ← parseRAlt fuel s
    match rest with
    | ')' :: rest2 => some (r, rest2)
    | _ => none
  | fuel + 1, '[' :: s => (parseClassItems fuel s).map fun p => (RE.cls p.1, p.2)
  | _ + 1, '.' :: s => some (.anyc, s)
  | _ + 1, c :: s =>
    if c = ')' || c = '|' || c = '+' || c = '*' || c = '?' then none
    else some (.lit c, s)
  | _ + 1, [] => none

end

/-- Parse a whole pattern: strip a leading `^` and a trailing `$`, parse the
body, and require that all input is consumed. -/
def goRegexParse (pattern : GoStr) : Option (Bool × Bool × RE) :=
  let p1 := match pattern with
    | '^' :: rest => rest
    | _ => pattern
  let anchStart := decide (p1 ≠ pattern) || pattern = str "^"
  let anchEnd := p1.getLast? = some '$'
  let p2 := if anchEnd then p1.dropLast else p1
  match parseRAlt (2 * p2.length + 16) p2 with
  | some (r, []) => some (anchStart, anchEnd, r)
  | _ => none

/-- `regexp.MustCompile(pattern).MatchString(s)` for the modelled subset. -/
def goRegexMatchString (pattern s : GoStr) : Bool :=
  match goRegexParse pattern with
  | none => false
  | some (anchStart, anchEnd, r) =>
    let r1 := if anchStart then r else .cat (.star .anyc) r
    let r2 := if anchEnd then r1 else .cat r1 (.star .anyc)
    r2.matchFull s

/-- **C4.** Regex prefix rewriting.  For a pattern without the `{prefix}`
sentinel whose body (after an optional `^` anchor) is rooted at `/`:
Required yields `anchor + "/(" + join(values,"|") + ")" + tail` and Optional
yields `anchor + "(?:/(" + join(values,"|") + "))?" + tail`; a pattern whose
body is not rooted at `/` is returned unchanged.  In particular
`^/users/[0-9]+$` with values `[es,fr,it]` under Required becomes
`^/(es|fr|it)/users/[0-9]+$`, which matches `/es/users/42` and does not
match `/users/42`. -/
theorem C4_regex_rewrite (pattern : GoStr) (values : List GoStr)
    (hsent : goContains pattern (str "\x7bprefix\x7d") = false)
    (hvals : values ≠ []) :
    ((goHasPrefix (if goHasPrefix pattern (str "^") then pattern.drop 1 else pattern)
        (str "/") = true →
      expandRegexWithPrefixes pattern values .required =
        (if goHasPrefix pattern (str "^") then str "^" else []) ++ str "/(" ++
          goJoin (str "|") values ++ str ")" ++
          (if goHasPrefix pattern (str "^") then pattern.drop 1 else pattern) ∧
      expandRegexWithPrefixes pattern values .optional =
        (if goHasPrefix pattern (str "^") then str "^" else []) ++ str "(?:/(" ++
          goJoin (str "|") values ++ str "))?" ++
          (if goHasPrefix pattern (str "^") then pattern.drop 1 else pattern)) ∧
     (goHasPrefix (if goHasPrefix pattern (str "^") then pattern.drop 1 else pattern)
        (str "/") = false →
      ∀ policy, expandRegexWithPrefixes pattern values policy = pattern)) ∧
    expandRegexWithPrefixes (str "^/users/[0-9]+$") [str "es", str "fr", str "it"]
        .required = str "^/(es|fr|it)/users/[0-9]+$" ∧
    goRegexMatchString (str "^/(es|fr|it)/users/[0-9]+$") (str "/es/users/42") = true ∧
    goRegexMatchString (str "^/(es|fr|it)/users/[0-9]+$") (str "/users/42") = false := by
  have hlen : ¬ values.length = 0 := by
    simpa [List.length_eq_zero] using hvals
  refine ⟨⟨?_, ?_⟩, by decide, by decide, by decide⟩
  · intro hroot
    constructor <;>
      · simp only [expandRegexWithPrefixes, hsent, hlen, hroot]
        by_cases hanch : goHasPrefix pattern (str "^") <;>
          simp [hanch, str]
  · intro hroot policy
    cases policy <;>
      · simp only [expandRegexWithPrefixes, hsent, hlen, hroot]
        by_cases hanch : goHasPrefix pattern (str "^") <;> simp [hanch, str]

/-- Witness for C4 at the spec's S3 instance. -/
theorem C4_regex_rewrite_witness :
    goContains (str "^/users/[0-9]+$") (str "\x7bprefix\x7d") = false ∧
    ([str "es", str "fr", str "it"] : List GoStr) ≠ [] ∧
    (((goHasPrefix (if goHasPrefix (str "^/users/[0-9]+$") (str "^") then (str "^/users/[0-9]+$").drop 1 else str "^/users/[0-9]+$")
        (str "/") = true →
      expandRegexWithPrefixes (str "^/users/[0-9]+$") [str "es", str "fr", str "it"] .required =
        (if goHasPrefix (str "^/users/[0-9]+$") (str "^") then str "^" else []) ++ str "/(" ++
          goJoin (str "|") [str "es", str "fr", str "it"] ++ str ")" ++
          (if goHasPrefix (str "^/users/[0-9]+$") (str "^") then (str "^/users/[0-9]+$").drop 1 else str "^/users/[0-9]+$") ∧
      expandRegexWithPrefixes (str "^/users/[0-9]+$") [str "es", str "fr", str "it"] .optional =
        (if goHasPrefix (str "^/users/[0-9]+$") (str "^") then str "^" else []) ++ str "(?:/(" ++
          goJoin (str "|") [str "es", str "fr", str "it"] ++ str "))?" ++
          (if goHasPrefix (str "^/users/[0-9]+$") (str "^") then (str "^/users/[0-9]+$").drop 1 else str "^/users/[0-9]+$")) ∧
     (goHasPrefix (if goHasPrefix (str "^/users/[0-9]+$") (str "^") then (str "^/users/[0-9]+$").drop 1 else str "^/users/[0-9]+$")
        (str "/") = false →
      ∀ policy, expandRegexWithPrefixes (str "^/users/[0-9]+$") [str "es", str "fr", str "it"] policy = str "^/users/[0-9]+$")) ∧
    expandRegexWithPrefixes (str "^/users/[0-9]+$") [str "es", str "fr", str "it"]
        .required = str "^/(es|fr|it)/users/[0-9]+$" ∧
    goRegexMatchString (str "^/(es|fr|it)/users/[0-9]+$") (str "/es/users/42") = true ∧
    goRegexMatchString (str "^/(es|fr|it)/users/[0-9]+$") (str "/users/42") = false) :=
  ⟨by decide, by decide,
    C4_regex_rewrite (str "^/users/[0-9]+$") [str "es", str "fr", str "it"]
      (by decide) (by decide)⟩

/-! ## `internal/extproc`: the request-header engine (`router.go`)

Envoy protobuf responses are modelled structurally: an `immediate` response
(status + header mutation), a forward directive (`requestHeaders` carrying a
`CommonResponse` with header mutation and `clear_route_cache`), or the empty
request-headers acknowledgement. -/

/-- `requestVars`: values extracted from the request headers for variable
substitution. -/
structure RequestVars where
  clientIP : GoStr := []
  requestID : GoStr := []
  host : GoStr := []
  path : GoStr := []
  method : GoStr := []
  scheme : GoStr := []
  pathSegments : List GoStr := []
deriving DecidableEq, Repr

/-- `splitPath`: path segments (query string removed, empty segments
dropped). -/
def splitPath (path : GoStr) : List GoStr :=
  ((path.takeWhile (fun c => c ≠ '?')).splitOn '/').filter (fun p => p ≠ [])

/-- `strings.TrimSpace` (ASCII space suffices for the inputs involved). -/
def goTrimSpace (s : GoStr) : GoStr :=
  ((s.dropWhile (fun c => c = ' ')).reverse.dropWhile (fun c => c = ' ')).reverse

/-- `extractFirstIP`: first entry of a comma-separated X-Forwarded-For. -/
def extractFirstIP (xff : GoStr) : GoStr :=
  if xff = [] then []
  else goTrimSpace ((xff.splitOn ',').headD [])

/-- `strings.LastIndex(s, string(c))`, -1 when absent. -/
def goLastIndexChar (s : GoStr) (c : Char) : Int :=
  match s.reverse.findIdx? (fun x => x = c) with
  | some i => (s.length : Int) - 1 - (i : Int)
  | none => -1

/-- `strings.Count(s, string(c))`. -/
def goCountChar (s : GoStr) (c : Char) : Nat := (s.filter (fun x => x = c)).length

/-- The extproc `stripPort`: strips a port from `host:port`, handling
bracketed IPv6 literals. -/
def stripPortAuthority (host : GoStr) : GoStr :=
  let idx := goLastIndexChar host ':'
  if idx ≠ -1 then
    if goContains host (str "]") then
      let bracketIdx := goLastIndexChar host ']'
      if bracketIdx < idx then host.take idx.toNat else host
    else if goCountChar host ':' = 1 then host.take idx.toNat
    else host
  else host

/-- `substituteVariables`: replace each `${...}` placeholder by its value;
unknown placeholders stay literal. -/
def substituteVariables (value : GoStr) (vars : RequestVars) : GoStr :=
  if value = [] then value
  else
    vars.pathSegments.enum.foldl
      (fun acc p =>
        goReplaceAll acc (str "$\x7bpath.segment." ++ goItoa (p.1 : Int) ++ str "\x7d") p.2)
      (goReplaceAll (goReplaceAll (goReplaceAll (goReplaceAll (goReplaceAll (goReplaceAll value
        (str "$\x7bclient_ip\x7d") vars.clientIP)
        (str "$\x7brequest_id\x7d") vars.requestID)
        (str "$\x7bhost\x7d") vars.host)
        (str "$\x7bpath\x7d") vars.path)
        (str "$\x7bmethod\x7d") vars.method)
        (str "$\x7bscheme\x7d") vars.scheme)

/-- `corev3.HeaderValueOption.AppendAction` (only the values the code sets). -/
inductive AppendAction where
  | unspecified
  | overwriteIfExistsOrAdd
  | appendIfExistsOrAdd
deriving DecidableEq, Repr

/-- One `SetHeaders` entry: key, value, append action. -/
structure HeaderValueOption where
  key : GoStr
  value : GoStr
  appendAction : AppendAction := .unspecified
deriving DecidableEq, Repr

/-- The `CommonResponse` carried by a forward directive. -/
structure CommonResponseM where
  clearRouteCache : Bool
  setHeaders : List HeaderValueOption
  removeHeaders : List GoStr
deriving DecidableEq, Repr

/-- `extprocv3.ProcessingResponse`, restricted to the three shapes the
engine produces. -/
inductive ProcResponse where
  | requestHeadersAck
  | immediate (status : Int) (setHeaders : List (GoStr × GoStr))
  | requestHeaders (c : CommonResponseM)
deriving DecidableEq, Repr

/-- `Route.ParseBackend()`: split `host:port`, defaulting the port to 80. -/
def Route.parseBackend (r : Route) : GoStr × GoStr :=
  match r.backend.splitOn ':' with
  | [h, p] => (h, p)
  | _ => (r.backend, str "80")

/-- The table row's type string (`"exact"`, `"prefix"`, `"regex"`). -/
def routeTypeStr : RouteType → GoStr
  | .exact => str "exact"
  | .pfx => str "prefix"
  | .rgx => str "regex"

/-- `buildRedirectResponse`: the ImmediateResponse for a redirect action. -/
def buildRedirectResponse (action : RouteAction) (vars : RequestVars) : ProcResponse :=
  let scheme := if action.redirectScheme = [] then vars.scheme else action.redirectScheme
  let hostname :=
    if action.redirectHostname = [] then stripPortAuthority vars.host
    else action.redirectHostname
  let path0 := substituteVariables action.redirectPath vars
  let path := if path0 = [] then vars.path else path0
  let portStr :=
    if action.redirectPort > 0 then
      if (scheme = str "http" ∧ action.redirectPort = 80) ∨
          (scheme = str "https" ∧ action.redirectPort = 443) then []
      else str ":" ++ goItoa action.redirectPort
    else []
  let redirectURL := scheme ++ str "://" ++ hostname ++ portStr ++ path
  let statusCode := if action.redirectStatusCode = 0 then 302 else action.redirectStatusCode
  .immediate statusCode [(str "Location", redirectURL)]

/-- One step of `buildForwardResponse`'s action loop; the state is
`(finalAuthority, finalPath, setHeaders, removeHeaders)`. -/
def forwardActionStep (vars : RequestVars)
    (st : GoStr × GoStr × List HeaderValueOption × List GoStr) (action : RouteAction) :
    GoStr × GoStr × List HeaderValueOption × List GoStr :=
  let (finalAuthority, finalPath, setHeaders, removeHeaders) := st
  match action.ty with
  | .rewrite =>
    let finalPath := if action.rewritePath ≠ [] then substituteVariables action.rewritePath vars else finalPath
    let finalAuthority := if action.rewriteHostname ≠ [] then action.rewriteHostname else finalAuthority
    (finalAuthority, finalPath, setHeaders, removeHeaders)
  | .headerSet =>
    if action.headerName ≠ [] then
      (finalAuthority, finalPath,
        setHeaders ++ [⟨action.headerName, substituteVariables action.value vars, .overwriteIfExistsOrAdd⟩],
        removeHeaders)
    else st
  | .headerAdd =>
    if action.headerName ≠ [] then
      (finalAuthority, finalPath,
        setHeaders ++ [⟨action.headerName, substituteVariables action.value vars, .appendIfExistsOrAdd⟩],
        removeHeaders)
    else st
  | .headerRemove =>
    if action.headerName ≠ [] then
      (finalAuthority, finalPath, setHeaders, removeHeaders ++ [action.headerName])
    else st
  | .redirect => st

/-- `buildForwardResponse`: forward directive with header mutations.
`authority` is `reqCtx.authority`. -/
def buildForwardResponse (route : Route) (vars : RequestVars) (authority : GoStr) :
    ProcResponse :=
  let hp := route.parseBackend
  let clusterName := str "outbound|" ++ hp.2 ++ str "||" ++ hp.1
  let baseHeaders : List HeaderValueOption :=
    [⟨str "x-customrouter-cluster", clusterName, .unspecified⟩,
     ⟨str "x-original-authority", authority, .unspecified⟩,
     ⟨str "x-customrouter-matched-path", route.path, .unspecified⟩,
     ⟨str "x-customrouter-matched-type", routeTypeStr route.ty, .unspecified⟩]
  let st := route.actions.foldl (forwardActionStep vars) (route.backend, vars.path, baseHeaders, [])
  let finalAuthority := st.1
  let finalPath := st.2.1
  let setHeaders := st.2.2.1 ++
    [⟨str ":authority", finalAuthority, .overwriteIfExistsOrAdd⟩,
     ⟨str "Host", finalAuthority, .overwriteIfExistsOrAdd⟩] ++
    (if finalPath ≠ vars.path then [⟨str ":path", finalPath, .overwriteIfExistsOrAdd⟩] else [])
  .requestHeaders ⟨true, setHeaders, st.2.2.2⟩

/-- The redirect-precedence scan of `processRequestHeaders`
(`for _, action := range route.Actions { if action.Type == redirect ... }`). -/
def firstRedirect : List RouteAction → Option RouteAction
  | [] => none
  | a :: rest => if a.ty = .redirect then some a else firstRedirect rest

/-- The tail of `processRequestHeaders` once a route has matched: redirects
take precedence, otherwise a forward directive is built. -/
def routeResponse (route : Route) (vars : RequestVars) (authority : GoStr) : ProcResponse :=
  match firstRedirect route.actions with
  | some action => buildRedirectResponse action vars
  | none => buildForwardResponse route vars authority

/-- Claim-side redirect status: the action's status code, defaulting to 302. -/
def claimedRedirectStatus (a : RouteAction) : Int :=
  if a.redirectStatusCode = 0 then 302 else a.redirectStatusCode

/-- Claim-side Location: `scheme "://" hostname [":" port] path`, each
component falling back to a request-derived default (action scheme else
request scheme; action hostname else stripPort(authority); action path
after variable substitution else current path; port omitted when zero or
standard for the scheme). -/
def claimedRedirectLocation (a : RouteAction) (vars : RequestVars) : GoStr :=
  let scheme := if a.redirectScheme = [] then vars.scheme else a.redirectScheme
  let hostname :=
    if a.redirectHostname = [] then stripPortAuthority vars.host else a.redirectHostname
  let path :=
    if substituteVariables a.redirectPath vars = [] then vars.path
    else substituteVariables a.redirectPath vars
  let port :=
    if a.redirectPort > 0 ∧
        ¬ ((scheme = str "http" ∧ a.redirectPort = 80) ∨
           (scheme = str "https" ∧ a.redirectPort = 443)) then
      str ":" ++ goItoa a.redirectPort
    else []
  scheme ++ str "://" ++ hostname ++ port ++ path

theorem firstRedirect_eq_find? (actions : List RouteAction) :
    firstRedirect actions = actions.find? (fun a => a.ty == ActionType.redirect) := by
  induction actions with
  | nil => rfl
  | cons a rest ih =>
    by_cases h : a.ty = ActionType.redirect
    · have hb : (a.ty == ActionType.redirect) = true := by simp [h]
      simp [firstRedirect, List.find?, h, hb]
    · have hb : (a.ty == ActionType.redirect) = false := by simp [h]
      simp [firstRedirect, List.find?, h, hb, ih]

theorem buildRedirectResponse_eq_claimed (a : RouteAction) (vars : RequestVars) :
    buildRedirectResponse a vars =
      .immediate (claimedRedirectStatus a)
        [(str "Location", claimedRedirectLocation a vars)] := by
  unfold buildRedirectResponse claimedRedirectStatus claimedRedirectLocation
  by_cases hp : a.redirectPort > 0 <;>
    by_cases hstd : ((if a.redirectScheme = [] then vars.scheme else a.redirectScheme) = str "http" ∧ a.redirectPort = 80) ∨
      ((if a.redirectScheme = [] then vars.scheme else a.redirectScheme) = str "https" ∧ a.redirectPort = 443) <;>
    simp [hp, hstd]

/-- **C2.** When the matched route's action list contains a Redirect action,
request-header processing returns the ImmediateResponse built from the
*first* Redirect action — status defaulting to 302, `Location` composed from
the action's scheme/hostname/path/port with request-derived fallbacks — and
emits no forward directive: the result is not a header-mutation
`CommonResponse`, and no other action of the list influences it. -/
theorem C2_redirect_precedence (route : Route) (vars : RequestVars) (authority : GoStr)
    (h : ∃ a ∈ route.actions, a.ty = ActionType.redirect) :
    ∃ a, route.actions.find? (fun x => x.ty == ActionType.redirect) = some a ∧
      routeResponse route vars authority =
        .immediate (claimedRedirectStatus a)
          [(str "Location", claimedRedirectLocation a vars)] ∧
      ∀ c : CommonResponseM, routeResponse route vars authority ≠ .requestHeaders c := by
  obtain ⟨a0, ha0, hty⟩ := h
  have hsome : (route.actions.find? (fun x => x.ty == ActionType.redirect)).isSome := by
    rw [List.find?_isSome]
    exact ⟨a0, ha0, by simp [hty]⟩
  obtain ⟨a, ha⟩ := Option.isSome_iff_exists.mp hsome
  have h1 : routeResponse route vars authority =
      .immediate (claimedRedirectStatus a)
        [(str "Location", claimedRedirectLocation a vars)] := by
    unfold routeResponse
    rw [firstRedirect_eq_find?, ha]
    exact buildRedirectResponse_eq_claimed a vars
  exact ⟨a, ha, h1, fun c => by rw [h1]; simp⟩

/-- Witness for C2 (the spec's S7 shape): actions
`[HeaderSet X=y, Redirect(path=/new, statusCode=301)]`. -/
theorem C2_redirect_precedence_witness :
    (∃ a ∈ (Route.mk (str "/old") RouteType.pfx (str "b.ns.svc.cluster.local:80") 1000
        [RouteAction.mk ActionType.headerSet [] [] [] 0 0 [] [] none (str "X") (str "y"),
         { ty := ActionType.redirect, redirectPath := str "/new", redirectStatusCode := 301 }]).actions,
      a.ty = ActionType.redirect) ∧
    (∃ a, (Route.mk (str "/old") RouteType.pfx (str "b.ns.svc.cluster.local:80") 1000
        [RouteAction.mk ActionType.headerSet [] [] [] 0 0 [] [] none (str "X") (str "y"),
         { ty := ActionType.redirect, redirectPath := str "/new", redirectStatusCode := 301 }]).actions.find?
          (fun x => x.ty == ActionType.redirect) = some a ∧
      routeResponse (Route.mk (str "/old") RouteType.pfx (str "b.ns.svc.cluster.local:80") 1000
        [RouteAction.mk ActionType.headerSet [] [] [] 0 0 [] [] none (str "X") (str "y"),
         { ty := ActionType.redirect, redirectPath := str "/new", redirectStatusCode := 301 }])
        (RequestVars.mk [] [] (str "example.com") (str "/old") (str "GET") (str "https") [])
        (str "example.com") =
        .immediate (claimedRedirectStatus a)
          [(str "Location", claimedRedirectLocation a
            (RequestVars.mk [] [] (str "example.com") (str "/old") (str "GET") (str "https") []))] ∧
      ∀ c : CommonResponseM,
        routeResponse (Route.mk (str "/old") RouteType.pfx (str "b.ns.svc.cluster.local:80") 1000
          [RouteAction.mk ActionType.headerSet [] [] [] 0 0 [] [] none (str "X") (str "y"),
           { ty := ActionType.redirect, redirectPath := str "/new", redirectStatusCode := 301 }])
          (RequestVars.mk [] [] (str "example.com") (str "/old") (str "GET") (str "https") [])
          (str "example.com") ≠ .requestHeaders c) :=
  ⟨by decide, C2_redirect_precedence _ _ _ (by decide)⟩

/-! ## The rewrite-apply logic (claim C9)

The current `router.go` rewrite application (`shouldReplacePrefixMatch` and
the prefix-rewrite branch of `buildForwardResponse`) is not among the
provided sources: `router_test.go` exercises `shouldReplacePrefixMatch`,
which does not exist in the older `buildForwardResponse` shipped alongside
it.  The functions below are therefore modelled from the spec (§4.G
"Rewrite apply") and checked against the expectations in
`TestShouldReplacePrefixMatch`. -/

/-- Modelled from the spec: `shouldReplacePrefixMatch` (absent from the
provided sources; only its tests are present).  An explicit
`replacePrefixMatch` is honored; otherwise prefix-rewrite applies iff the
route kind is Prefix and the rewrite path contains no `${...}`
placeholders. -/
def shouldReplacePrefixMatchSpec (action : RouteAction) (route : Route) : Bool :=
  match action.rewriteReplacePrefixMatch with
  | some b => b
  | none => route.ty == RouteType.pfx && !goContains action.rewritePath (str "$\x7b")

/-- Modelled from the spec: the `:path` produced by a Rewrite action with a
path (absent from the provided sources).  Prefix-rewrite replaces only the
matched prefix by the substituted rewrite path and keeps the rest of the
request path (query string included); full-rewrite replaces the whole
path. -/
def applyRewritePathSpec (action : RouteAction) (route : Route) (vars : RequestVars) :
    GoStr :=
  let rewritten := substituteVariables action.rewritePath vars
  if shouldReplacePrefixMatchSpec action route then
    rewritten ++ vars.path.drop route.path.length
  else rewritten

/-- The query-string portion of a path: everything from the first `?` on. -/
def queryStringOf (s : GoStr) : GoStr := s.dropWhile (fun c => c ≠ '?')

theorem goReplaceAllF_of_not_contains (fuel : Nat) (s pat rep : GoStr)
    (h : goContains s pat = false) : goReplaceAllF fuel s pat rep = s := by
  induction fuel generalizing s with
  | zero => rfl
  | succ fuel ih =>
    cases s with
    | nil => rfl
    | cons c rest =>
      rw [goContains] at h
      simp only [Bool.or_eq_false_iff] at h
      rw [goReplaceAllF,
        if_neg (by simp [h.1] : ¬ (pat ≠ [] ∧ pat.isPrefixOf (c :: rest) = true)),
        ih rest h.2]

theorem goReplaceAll_of_not_contains (s pat rep : GoStr)
    (h : goContains s pat = false) : goReplaceAll s pat rep = s :=
  goReplaceAllF_of_not_contains s.length s pat rep h

theorem goContains_of_isPrefixOf (s p q : GoStr) (hpq : p.isPrefixOf q = true)
    (hq : goContains s q = true) : goContains s p = true := by
  induction s with
  | nil =>
    rw [goContains] at hq ⊢
    simp only [List.isEmpty_iff] at hq
    subst hq
    simpa using List.isPrefixOf_iff_prefix.mp hpq
  | cons c rest ih =>
    rw [goContains] at hq ⊢
    simp only [Bool.or_eq_true] at hq ⊢
    rcases hq with hq | hq
    · exact Or.inl (List.isPrefixOf_iff_prefix.mpr
        ((List.isPrefixOf_iff_prefix.mp hpq).trans (List.isPrefixOf_iff_prefix.mp hq)))
    · exact Or.inr (ih hq)

theorem substituteVariables_no_placeholder (value : GoStr) (vars : RequestVars)
    (h : goContains value (str "$\x7b") = false) :
    substituteVariables value vars = value := by
  have hstep : ∀ pat rep : GoStr, (str "$\x7b").isPrefixOf pat = true →
      goReplaceAll value pat rep = value := by
    intro pat rep hp
    refine goReplaceAll_of_not_contains value pat rep ?_
    by_contra hc
    simp only [Bool.not_eq_false] at hc
    rw [goContains_of_isPrefixOf value _ pat hp hc] at h
    exact Bool.true_eq_false.mp h
  unfold substituteVariables
  split
  · rfl
  · rw [hstep (str "$\x7bclient_ip\x7d") vars.clientIP (by decide),
      hstep (str "$\x7brequest_id\x7d") vars.requestID (by decide),
      hstep (str "$\x7bhost\x7d") vars.host (by decide),
      hstep (str "$\x7bpath\x7d") vars.path (by decide),
      hstep (str "$\x7bmethod\x7d") vars.method (by decide),
      hstep (str "$\x7bscheme\x7d") vars.scheme (by decide)]
    have hseg : ∀ l : List (Nat × GoStr),
        l.foldl (fun acc p =>
          goReplaceAll acc (str "$\x7bpath.segment." ++ goItoa (p.1 : Int) ++ str "\x7d") p.2)
          value = value := by
      intro l
      induction l with
      | nil => rfl
      | cons x xs ih =>
        rw [List.foldl_cons,
          hstep (str "$\x7bpath.segment." ++ goItoa (x.1 : Int) ++ str "\x7d") x.2 rfl, ih]
    exact hseg _

theorem not_mem_of_goContains_singleton (s : GoStr) (c : Char)
    (h : goContains s [c] = false) : c ∉ s := by
  induction s with
  | nil => simp
  | cons x rest ih =>
    rw [goContains] at h
    simp only [Bool.or_eq_false_iff] at h
    have hx : ¬ c = x := by
      intro hcx
      subst hcx
      simp [List.isPrefixOf] at h
    simp only [List.mem_cons]
    rintro (rfl | hm)
    · exact hx rfl
    · exact ih h.2 hm

theorem queryStringOf_append_of_no_query (a b : GoStr)
    (h : goContains a (str "?") = false) :
    queryStringOf (a ++ b) = queryStringOf b := by
  have hall : ∀ x ∈ a, (fun c => decide (c ≠ '?')) x = true := by
    intro x hx
    have := not_mem_of_goContains_singleton a '?' h
    simp only [decide_eq_true_eq]
    intro hq
    subst hq
    exact this hx
  unfold queryStringOf
  rw [List.dropWhile_append]
  have : (a.dropWhile (fun c => decide (c ≠ '?'))).isEmpty = true := by
    simp only [List.isEmpty_iff]
    exact List.dropWhile_eq_nil_iff.mpr hall
  rw [if_pos this]

/-- **C9.** (spec-modelled) Prefix-rewrite path preservation: for a route
matched by kind Prefix with a Rewrite path containing no `${...}`
placeholders (and no explicit `replacePrefixMatch`), the resulting `:path`
is the substituted rewrite path followed by the portion of the original
request path beyond the matched prefix — the substitution leaves the
placeholder-free path unchanged — and the original query string is
preserved. -/
theorem C9_prefix_rewrite_preserves_suffix (route : Route) (action : RouteAction)
    (vars : RequestVars)
    (hty : route.ty = RouteType.pfx)
    (hrpm : action.rewriteReplacePrefixMatch = none)
    (hnovar : goContains action.rewritePath (str "$\x7b") = false)
    (hmatch : goHasPrefix vars.path route.path = true)
    (hnoq1 : goContains action.rewritePath (str "?") = false)
    (hnoq2 : goContains route.path (str "?") = false) :
    substituteVariables action.rewritePath vars = action.rewritePath ∧
    applyRewritePathSpec action route vars =
      action.rewritePath ++ vars.path.drop route.path.length ∧
    queryStringOf (applyRewritePathSpec action route vars) = queryStringOf vars.path := by
  have hsub := substituteVariables_no_placeholder action.rewritePath vars hnovar
  have hcond : shouldReplacePrefixMatchSpec action route = true := by
    unfold shouldReplacePrefixMatchSpec
    rw [hrpm]
    simp [hty, hnovar]
  have happ : applyRewritePathSpec action route vars =
      action.rewritePath ++ vars.path.drop route.path.length := by
    unfold applyRewritePathSpec
    rw [hcond]
    simp [hsub]
  refine ⟨hsub, happ, ?_⟩
  obtain ⟨t, ht⟩ := List.isPrefixOf_iff_prefix.mp hmatch
  rw [happ, ← ht, List.drop_left,
    queryStringOf_append_of_no_query _ _ hnoq1,
    queryStringOf_append_of_no_query _ _ hnoq2]

/-- Witness for C9 at the spec's S6 instance: route `(Prefix, /blog)`,
rewrite path `/cms/blog`, request `/blog/post/42?x=1` yields
`/cms/blog/post/42?x=1`. -/
theorem C9_prefix_rewrite_preserves_suffix_witness :
    ((Route.mk (str "/blog") RouteType.pfx (str "b.ns.svc.cluster.local:80") 1000 []).ty = RouteType.pfx ∧
     ({ ty := ActionType.rewrite, rewritePath := str "/cms/blog" } : RouteAction).rewriteReplacePrefixMatch = none ∧
     goContains (str "/cms/blog") (str "$\x7b") = false ∧
     goHasPrefix (str "/blog/post/42?x=1") (str "/blog") = true ∧
     goContains (str "/cms/blog") (str "?") = false ∧
     goContains (str "/blog") (str "?") = false) ∧
    (substituteVariables ({ ty := ActionType.rewrite, rewritePath := str "/cms/blog" } : RouteAction).rewritePath
        { path := str "/blog/post/42?x=1" } =
      ({ ty := ActionType.rewrite, rewritePath := str "/cms/blog" } : RouteAction).rewritePath ∧
     applyRewritePathSpec { ty := ActionType.rewrite, rewritePath := str "/cms/blog" }
        (Route.mk (str "/blog") RouteType.pfx (str "b.ns.svc.cluster.local:80") 1000 [])
        { path := str "/blog/post/42?x=1" } =
      ({ ty := ActionType.rewrite, rewritePath := str "/cms/blog" } : RouteAction).rewritePath ++
        (str "/blog/post/42?x=1").drop (str "/blog").length ∧
     queryStringOf (applyRewritePathSpec { ty := ActionType.rewrite, rewritePath := str "/cms/blog" }
        (Route.mk (str "/blog") RouteType.pfx (str "b.ns.svc.cluster.local:80") 1000 [])
        { path := str "/blog/post/42?x=1" }) = queryStringOf (str "/blog/post/42?x=1")) ∧
    applyRewritePathSpec { ty := ActionType.rewrite, rewritePath := str "/cms/blog" }
        (Route.mk (str "/blog") RouteType.pfx (str "b.ns.svc.cluster.local:80") 1000 [])
        { path := str "/blog/post/42?x=1" } = str "/cms/blog/post/42?x=1" :=
  ⟨⟨rfl, rfl, by decide, by decide, by decide, by decide⟩,
    C9_prefix_rewrite_preserves_suffix _ _ _ rfl rfl (by decide) (by decide) (by decide) (by decide),
    by decide⟩

/-! ## `internal/webhook/hostname_checker.go`: the admission conflict check

The Kubernetes `client.Reader` is replaced by the lists it would return:
the cluster's CustomHTTPRoutes and gateway-API HTTPRoutes.  The check
returns an error exactly when a conflict is found; it is modelled as a
`Bool` (`true` = reject).  Go's `seen`/`toSet` hash maps are modelled by
list membership, and Go map assignment by key-replacing insertion. -/

/-- `string(m.Type)` for the dedup key and the projection's path type. -/
def matchTypeStr : MatchType → GoStr
  | .pathPrefix => str "PathPrefix"
  | .exact => str "Exact"
  | .regex => str "Regex"

/-- `strings.TrimRight(s, string(c))`. -/
def goTrimRightChar (s : GoStr) (c : Char) : GoStr :=
  (s.reverse.dropWhile (fun x => x = c)).reverse

/-- `normalizePath`: strip trailing slashes (the root `/` is preserved). -/
def normalizePath (p : GoStr) : GoStr :=
  if p.length > 1 ∧ goHasSuffix p (str "/") then goTrimRightChar p '/' else p

/-- The webhook's `routeMatch`: one match projection. -/
structure RouteMatchP where
  pathType : GoStr
  path : GoStr
  method : GoStr := []
  headers : List (GoStr × GoStr) := []
  queryParams : List (GoStr × GoStr) := []
deriving DecidableEq, Repr

/-- `extractCustomRouteMatches`: the candidate projections of a
CustomHTTPRoute — path type and normalized path, deduplicated by
`type + ":" + path`; method, headers and query parameters are always
empty. -/
def extractCustomRouteMatches (route : CustomHTTPRoute) : List RouteMatchP :=
  (((route.rules.map (fun rule => rule.matches_)).flatten).foldl
    (fun st m =>
      let key := matchTypeStr m.ty ++ str ":" ++ normalizePath m.path
      if st.1.contains key then st
      else (st.1 ++ [key],
        st.2 ++ [{ pathType := matchTypeStr m.ty, path := normalizePath m.path }]))
    (([], []) : List GoStr × List RouteMatchP)).2

/-- `gatewayv1.HTTPPathMatch` (`Type` and `Value` are pointers). -/
structure HTTPPathMatch where
  ty : Option GoStr
  value : Option GoStr
deriving DecidableEq, Repr

/-- `gatewayv1.HTTPRouteMatch` (headers/query params as name-value pairs). -/
structure HTTPRouteMatch where
  path : Option HTTPPathMatch
  method : Option GoStr
  headers : List (GoStr × GoStr)
  queryParams : List (GoStr × GoStr)
deriving DecidableEq, Repr

/-- `gatewayv1.HTTPRouteRule` (the fields the checker reads). -/
structure HTTPRouteRule where
  matches_ : List HTTPRouteMatch
deriving DecidableEq, Repr

/-- A `gatewayv1.HTTPRoute` (the fields the checker reads). -/
structure HTTPRoute where
  ns : GoStr
  name : GoStr
  hostnames : List GoStr
  rules : List HTTPRouteRule
deriving DecidableEq, Repr

/-- `sort.Slice` by lowercased name, as used on header/query-parameter
matches (the comparator from the source; tie order is not observable in the
overlap check). -/
def sortByLowerName (l : List (GoStr × GoStr)) : List (GoStr × GoStr) :=
  l.mergeSort (fun a b => !goStrLt (goToLower b.1) (goToLower a.1))

/-- `extractHTTPRouteMatches`: projections of a gateway-API HTTPRoute; a
rule without matches, or a route without rules, projects to the
`(PathPrefix, "/")` catch-all. -/
def extractHTTPRouteMatches (hr : HTTPRoute) : List RouteMatchP :=
  ((hr.rules.map fun rule =>
    if rule.matches_.isEmpty then
      [({ pathType := str "PathPrefix", path := str "/" } : RouteMatchP)]
    else
      rule.matches_.map fun m =>
        let base : RouteMatchP := { pathType := str "PathPrefix", path := str "/" }
        let rm := match m.path with
          | none => base
          | some pm =>
            { base with
              pathType := pm.ty.getD (str "PathPrefix")
              path := match pm.value with
                | some v => normalizePath v
                | none => str "/" }
        { rm with
          method := m.method.getD []
          headers := sortByLowerName m.headers
          queryParams := sortByLowerName m.queryParams }).flatten ++
  (if hr.rules.isEmpty then
    [({ pathType := str "PathPrefix", path := str "/" } : RouteMatchP)]
  else []))

/-- `methodsCompatible`: empty matches all; otherwise case-insensitive
equality. -/
def methodsCompatible (a b : GoStr) : Bool :=
  if a = [] || b = [] then true else goEqualFold a b

/-- Go map assignment `m[k] = v` on an association list. -/
def insertAssoc (m : List (GoStr × GoStr)) (k v : GoStr) : List (GoStr × GoStr) :=
  if m.any (fun p => p.1 == k) then
    m.map (fun p => if p.1 == k then (k, v) else p)
  else m ++ [(k, v)]

/-- `headersCompatible`: an empty set matches all; two non-empty sets are
incompatible only when they require different values for the same
(lowercased) name. -/
def headersCompatible (a b : List (GoStr × GoStr)) : Bool :=
  if a.length = 0 || b.length = 0 then true
  else
    let bMap := b.foldl (fun m h => insertAssoc m (goToLower h.1) h.2) []
    a.all fun h =>
      match bMap.lookup (goToLower h.1) with
      | some bVal => bVal == h.2
      | none => true

/-- `queryParamsCompatible`: same logic as `headersCompatible`. -/
def queryParamsCompatible (a b : List (GoStr × GoStr)) : Bool :=
  if a.length = 0 || b.length = 0 then true
  else
    let bMap := b.foldl (fun m q => insertAssoc m (goToLower q.1) q.2) []
    a.all fun q =>
      match bMap.lookup (goToLower q.1) with
      | some bVal => bVal == q.2
      | none => true

/-- The overlap test of `findRouteMatchOverlap`'s inner loop. -/
def routeMatchOverlapB (ma mb : RouteMatchP) : Bool :=
  ma.pathType == mb.pathType && ma.path == mb.path &&
    methodsCompatible ma.method mb.method &&
    headersCompatible ma.headers mb.headers &&
    queryParamsCompatible ma.queryParams mb.queryParams

/-- `findRouteMatchOverlap`: the projections of `a` that overlap some
projection of `b`. -/
def findRouteMatchOverlap (a b : List RouteMatchP) : List RouteMatchP :=
  a.filter fun ma => b.any fun mb => routeMatchOverlapB ma mb

/-- `findOverlap`: the candidates present in the set. -/
def findOverlap (set : List GoStr) (candidates : List GoStr) : List GoStr :=
  candidates.filter fun c => set.contains c

/-- `gatewayHostnames`. -/
def gatewayHostnames (hr : HTTPRoute) : List GoStr := hr.hostnames

/-- `HostnameChecker.CheckCustomHTTPRouteHostnames`, with the Store's lists
as inputs; `true` models the error (rejection) return. -/
def CheckCustomHTTPRouteHostnames (route : CustomHTTPRoute)
    (customRoutes : List CustomHTTPRoute) (httpRoutes : List HTTPRoute) : Bool :=
  if route.hostnames.isEmpty then false
  else
    let routeMatches := extractCustomRouteMatches route
    (customRoutes.any fun other =>
      !(other.uid == route.uid) &&
      other.targetName == route.targetName &&
      !(findOverlap route.hostnames other.hostnames).isEmpty &&
      !(findRouteMatchOverlap routeMatches (extractCustomRouteMatches other)).isEmpty) ||
    (httpRoutes.any fun hr =>
      !(gatewayHostnames hr).isEmpty &&
      !(findOverlap route.hostnames (gatewayHostnames hr)).isEmpty &&
      !(findRouteMatchOverlap routeMatches (extractHTTPRouteMatches hr)).isEmpty)

/-- Claim-side overlap predicate (spec §4.E): equal path kind and equal
normalized path; methods equal case-insensitively or one empty; for every
header (and query-parameter) name present in both sets, the required values
are equal. -/
def overlapSpec (ma mb : RouteMatchP) : Prop :=
  ma.pathType = mb.pathType ∧ ma.path = mb.path ∧
  (ma.method = [] ∨ mb.method = [] ∨ goToLower ma.method = goToLower mb.method) ∧
  (∀ h ∈ ma.headers, ∀ h2 ∈ mb.headers, goToLower h.1 = goToLower h2.1 → h.2 = h2.2) ∧
  (∀ q ∈ ma.queryParams, ∀ q2 ∈ mb.queryParams, goToLower q.1 = goToLower q2.1 → q.2 = q2.2)

theorem extractCustomRouteMatches_fields (route : CustomHTTPRoute) :
    ∀ rm ∈ extractCustomRouteMatches route,
      rm.method = [] ∧ rm.headers = [] ∧ rm.queryParams = [] := by
  unfold extractCustomRouteMatches
  have hfold : ∀ (l : List PathMatch) (st : List GoStr × List RouteMatchP),
      (∀ rm ∈ st.2, rm.method = [] ∧ rm.headers = [] ∧ rm.queryParams = []) →
      ∀ rm ∈ (l.foldl
        (fun st m =>
          let key := matchTypeStr m.ty ++ str ":" ++ normalizePath m.path
          if st.1.contains key then st
          else (st.1 ++ [key],
            st.2 ++ [{ pathType := matchTypeStr m.ty, path := normalizePath m.path }]))
        st).2,
        rm.method = [] ∧ rm.headers = [] ∧ rm.queryParams = [] := by
    intro l
    induction l with
    | nil => intro st h; exact h
    | cons m rest ih =>
      intro st h
      rw [List.foldl_cons]
      apply ih
      dsimp only
      split
      · exact h
      · intro rm hrm
        rcases List.mem_append.mp hrm with hrm | hrm
        · exact h rm hrm
        · simp only [List.mem_singleton] at hrm
          subst hrm
          exact ⟨rfl, rfl, rfl⟩
  exact hfold _ _ (by intro rm h; simp at h)

theorem routeMatchOverlapB_iff_overlapSpec (ma mb : RouteMatchP)
    (h : ma.method = [] ∧ ma.headers = [] ∧ ma.queryParams = []) :
    routeMatchOverlapB ma mb = true ↔ overlapSpec ma mb := by
  obtain ⟨h1, h2, h3⟩ := h
  simp [routeMatchOverlapB, overlapSpec, methodsCompatible, headersCompatible,
    queryParamsCompatible, h1, h2, h3, and_assoc]

theorem findRouteMatchOverlap_nonempty (a b : List RouteMatchP)
    (ha : ∀ ma ∈ a, ma.method = [] ∧ ma.headers = [] ∧ ma.queryParams = []) :
    ((findRouteMatchOverlap a b).isEmpty = false) ↔
      ∃ ma ∈ a, ∃ mb ∈ b, overlapSpec ma mb := by
  rw [Bool.eq_false_iff]
  unfold findRouteMatchOverlap
  rw [Ne, List.isEmpty_iff, List.filter_eq_nil_iff]
  push_neg
  constructor
  · rintro ⟨ma, hma, hov⟩
    simp only [Bool.not_eq_true, Bool.not_eq_false, List.any_eq_true] at hov
    obtain ⟨mb, hmb, hb⟩ := hov
    exact ⟨ma, hma, mb, hmb, (routeMatchOverlapB_iff_overlapSpec ma mb (ha ma hma)).mp hb⟩
  · rintro ⟨ma, hma, mb, hmb, hov⟩
    refine ⟨ma, hma, ?_⟩
    simp only [Bool.not_eq_true, Bool.not_eq_false, List.any_eq_true]
    exact ⟨mb, hmb, (routeMatchOverlapB_iff_overlapSpec ma mb (ha ma hma)).mpr hov⟩

theorem findOverlap_nonempty (set cands : List GoStr) :
    ((findOverlap set cands).isEmpty = false) ↔ ∃ h, h ∈ set ∧ h ∈ cands := by
  rw [Bool.eq_false_iff]
  unfold findOverlap
  rw [Ne, List.isEmpty_iff, List.filter_eq_nil_iff]
  push_neg
  constructor
  · rintro ⟨c, hc, hin⟩
    exact ⟨c, List.elem_iff.mp hin, hc⟩
  · rintro ⟨c, hin, hc⟩
    exact ⟨c, hc, List.elem_iff.mpr hin⟩

/-- **C5.** The admission check rejects a candidate CustomHTTPRoute iff
there is (a) another CustomHTTPRoute with a different UID and the same
`targetRef.name` sharing a hostname and an overlapping match projection, or
(b) an HTTPRoute sharing a hostname and an overlapping projection — overlap
per `overlapSpec` (equal path kind and normalized path, case-insensitively
compatible methods, agreeing required header/query values).  In particular
a peer with a different target name or the same UID never causes
rejection. -/
theorem C5_admission_conflict_iff (route : CustomHTTPRoute)
    (customRoutes : List CustomHTTPRoute) (httpRoutes : List HTTPRoute) :
    CheckCustomHTTPRouteHostnames route customRoutes httpRoutes = true ↔
      ((∃ other ∈ customRoutes, other.uid ≠ route.uid ∧
          other.targetName = route.targetName ∧
          (∃ h, h ∈ route.hostnames ∧ h ∈ other.hostnames) ∧
          (∃ ma ∈ extractCustomRouteMatches route,
            ∃ mb ∈ extractCustomRouteMatches other, overlapSpec ma mb)) ∨
       (∃ hr ∈ httpRoutes, (∃ h, h ∈ route.hostnames ∧ h ∈ hr.hostnames) ∧
          (∃ ma ∈ extractCustomRouteMatches route,
            ∃ mb ∈ extractHTTPRouteMatches hr, overlapSpec ma mb))) := by
  have hfields := extractCustomRouteMatches_fields route
  unfold CheckCustomHTTPRouteHostnames
  by_cases hemp : route.hostnames.isEmpty
  · have hnil : route.hostnames = [] := List.isEmpty_iff.mp hemp
    simp [hemp, hnil]
  · rw [if_neg hemp]
    rw [Bool.or_eq_true, List.any_eq_true, List.any_eq_true]
    apply or_congr
    · apply exists_congr
      intro other
      apply and_congr_right
      intro _
      simp only [Bool.and_eq_true, Bool.not_eq_true']
      rw [findOverlap_nonempty, findRouteMatchOverlap_nonempty _ _ hfields]
      simp only [and_assoc, beq_eq_false_iff_ne, beq_iff_eq, ne_eq]
    · apply exists_congr
      intro hr
      apply and_congr_right
      intro _
      simp only [Bool.and_eq_true, Bool.not_eq_true']
      rw [findOverlap_nonempty, findRouteMatchOverlap_nonempty _ _ hfields]
      unfold gatewayHostnames
      constructor
      · rintro ⟨⟨_, hA⟩, hB⟩
        exact ⟨hA, hB⟩
      · rintro ⟨hA, hB⟩
        refine ⟨⟨?_, hA⟩, hB⟩
        obtain ⟨h, _, hmem⟩ := hA
        rw [Bool.eq_false_iff, Ne, List.isEmpty_iff]
        intro hnil
        rw [hnil] at hmem
        exact List.not_mem_nil h hmem

/-! ## `pkg/routes`: sort, full expansion, merge; and
`internal/controller/customhttproute/sync.go`: per-target aggregation -/

/-- `routes.MaxRoutesPerCRD`. -/
def MaxRoutesPerCRD : Nat := 500000

/-- The type rank used by the sort: exact 0, regex 1, prefix 2. -/
def typePriority : RouteType → Nat
  | .exact => 0
  | .rgx => 1
  | .pfx => 2

/-- The `less` comparator of `SortRoutes`/`sortRoutes`: priority descending,
then type rank ascending, then path length descending. -/
def lessRoutes (a b : Route) : Bool :=
  if a.priority ≠ b.priority then a.priority > b.priority
  else if typePriority a.ty ≠ typePriority b.ty then typePriority a.ty < typePriority b.ty
  else a.path.length > b.path.length

/-- `SortRoutes`: `sort.Slice(routes, less)`.  The model sorts by the
source's comparator with `mergeSort`; Go's `sort.Slice` is unstable, so the
order among comparator-equal rows is implementation-defined and the model
fixes one such order. -/
def SortRoutes (routes : List Route) : List Route :=
  routes.mergeSort (fun a b => !lessRoutes b a)

/-- `ExpandRoutes` (the capped version): estimate the output size, fail with
an error (`none`) above `MaxRoutesPerCRD`, otherwise expand every rule and
sort per host.  The `hosts` map is an association list keyed by hostname. -/
def ExpandRoutes (cr : CustomHTTPRoute) : Option (List (GoStr × List Route)) :=
  if cr.hostnames.length * (cr.rules.map (fun rule => rule.matches_.length)).sum *
      ((match cr.pathPrefixes with
        | some pp => pp.values.length
        | none => 0) + 1) > MaxRoutesPerCRD then none
  else
    some (cr.hostnames.map fun hostname =>
      (hostname, SortRoutes ((cr.rules.map (expandRule cr.pathPrefixes)).flatten)))

/-- Go map assignment `hosts[host] = append(existing, routes...)` /
`hosts[host] = routes` on the association-list model. -/
def appendAtKey (hosts : List (GoStr × List Route)) (host : GoStr) (routes : List Route) :
    List (GoStr × List Route) :=
  if hosts.any (fun p => p.1 == host) then
    hosts.map (fun p => if p.1 == host then (p.1, p.2 ++ routes) else p)
  else hosts ++ [(host, routes)]

/-- `MergeRoutesConfig`: concatenate the per-host route lists of all input
configs, then sort each host's list. -/
def MergeRoutesConfig (configs : List (List (GoStr × List Route))) : RoutesConfig :=
  { version := 1
    hosts := (configs.foldl
      (fun result config =>
        config.foldl (fun hosts p => appendAtKey hosts p.1 p.2) result)
      []).map fun p => (p.1, SortRoutes p.2) }

/-- The grouping step of `rebuildAllConfigMaps`: the non-deleting
CustomHTTPRoutes of a target, in list order. -/
def targetSpecs (specs : List CustomHTTPRoute) (t : GoStr) : List CustomHTTPRoute :=
  specs.filter fun s => !s.deleting && s.targetName == t

/-- The hostname-ownership map of `rebuildAllConfigMaps`: each hostname is
owned by the alphabetically first namespace among the routes declaring
it. -/
def buildHostnameOwner (targetRoutes : List CustomHTTPRoute) : List (GoStr × GoStr) :=
  targetRoutes.foldl
    (fun owner route =>
      route.hostnames.foldl
        (fun owner hostname =>
          match owner.lookup hostname with
          | none => insertAssoc owner hostname route.ns
          | some cur =>
            if goStrLt route.ns cur then insertAssoc owner hostname route.ns else owner)
        owner)
    []

/-- The per-target body of `rebuildAllConfigMaps`: build the ownership map,
expand every spec (skipping those over the route cap), drop hostnames not
owned by the spec's namespace, and merge.  (Go compares the owner map's
default value `""` when a hostname is absent; hostnames present in an
expansion always come from some spec, so the lookup always succeeds.) -/
def aggregateTarget (targetRoutes : List CustomHTTPRoute) : RoutesConfig :=
  MergeRoutesConfig (targetRoutes.filterMap fun route =>
    match ExpandRoutes route with
    | none => none
    | some expanded =>
      some (expanded.filter fun p =>
        (buildHostnameOwner targetRoutes).lookup p.1 == some route.ns))

/-- The aggregated table entry for a host (empty when absent). -/
def hostRoutesOf (config : RoutesConfig) (h : GoStr) : List Route :=
  (config.hosts.lookup h).getD []

/-- The routes a single spec's expansion contributes for host `h` (empty on
expansion failure or when the spec does not declare `h`). -/
def expandedFor (s : CustomHTTPRoute) (h : GoStr) : List Route :=
  match ExpandRoutes s with
  | some m => (m.lookup h).getD []
  | none => []

/-! ### Claim C6: supporting lemmas -/

theorem goStrLt_irrefl (a : GoStr) : goStrLt a a = false := by
  induction a with
  | nil => rfl
  | cons c rest ih => simp [goStrLt, ih, lt_irrefl]

theorem goStrLt_trans (a b c : GoStr) (h1 : goStrLt a b = true)
    (h2 : goStrLt b c = true) : goStrLt a c = true := by
  induction a generalizing b c with
  | nil =>
    cases b with
    | nil => exact absurd h1 (by simp [goStrLt])
    | cons y bs =>
      cases c with
      | nil => exact absurd h2 (by simp [goStrLt])
      | cons z cs => rfl
  | cons x as ih =>
    cases b with
    | nil => exact absurd h1 (by simp [goStrLt])
    | cons y bs =>
      cases c with
      | nil => exact absurd h2 (by simp [goStrLt])
      | cons z cs =>
        rw [goStrLt] at h1 h2 ⊢
        by_cases hxy : x < y
        · by_cases hyz : y < z
          · rw [if_pos (lt_trans hxy hyz)]
          · rw [if_neg hyz] at h2
            by_cases hzy : z < y
            · rw [if_pos hzy] at h2; exact absurd h2 (by simp)
            · have : y = z := le_antisymm (not_lt.mp hzy) (not_lt.mp hyz)
              rw [if_pos (this ▸ hxy)]
        · rw [if_neg hxy] at h1
          by_cases hyx : y < x
          · rw [if_pos hyx] at h1; exact absurd h1 (by simp)
          · have hxy' : x = y := le_antisymm (not_lt.mp hyx) (not_lt.mp hxy)
            rw [if_neg hyx] at h1
            by_cases hyz : y < z
            · rw [if_pos (hxy' ▸ hyz)]
            · rw [if_neg hyz] at h2
              by_cases hzy : z < y
              · rw [if_pos hzy] at h2; exact absurd h2 (by simp)
              · have hyz' : y = z := le_antisymm (not_lt.mp hzy) (not_lt.mp hyz)
                rw [if_neg (hxy' ▸ hyz : ¬ x < z), if_neg (hxy' ▸ hzy : ¬ z < x)]
                exact ih bs cs h1 (by rw [if_neg hzy] at h2; exact h2)

theorem goStrLt_trichotomy (a b : GoStr) :
    goStrLt a b = true ∨ a = b ∨ goStrLt b a = true := by
  induction a generalizing b with
  | nil =>
    cases b with
    | nil => exact Or.inr (Or.inl rfl)
    | cons y bs => exact Or.inl rfl
  | cons x as ih =>
    cases b with
    | nil => exact Or.inr (Or.inr rfl)
    | cons y bs =>
      rcases lt_trichotomy x y with hxy | hxy | hxy
      · exact Or.inl (by rw [goStrLt, if_pos hxy])
      · subst hxy
        rcases ih bs with h | h | h
        · exact Or.inl (by rw [goStrLt, if_neg (lt_irrefl x), if_neg (lt_irrefl x)]; exact h)
        · exact Or.inr (Or.inl (by rw [h]))
        · exact Or.inr (Or.inr (by rw [goStrLt, if_neg (lt_irrefl x), if_neg (lt_irrefl x)]; exact h))
      · exact Or.inr (Or.inr (by rw [goStrLt, if_pos hxy]))

/-- The running minimum used to state what the ownership fold computes. -/
def minNs (acc : Option GoStr) (ns : GoStr) : GoStr :=
  match acc with
  | none => ns
  | some c => if goStrLt ns c then ns else c

/-- What the ownership fold computes for one hostname: the lexicographic
minimum namespace among the target's specs declaring it. -/
def declMinFold (tr : List CustomHTTPRoute) (h : GoStr) : Option GoStr :=
  tr.foldl (fun acc s => if h ∈ s.hostnames then some (minNs acc s.ns) else acc) none

theorem lookup_map_replace_ne (l : List (GoStr × GoStr)) (k v k' : GoStr)
    (hk : ¬ k' = k) :
    List.lookup k' (l.map (fun p => if p.1 == k then (k, v) else p)) =
      List.lookup k' l := by
  induction l with
  | nil => rfl
  | cons p rest ih =>
    obtain ⟨pk, pv⟩ := p
    simp only [beq_iff_eq] at ih
    have hkb : (k' == k) = false := by simp [hk]
    by_cases hp : pk = k <;>
      simp [List.lookup_cons, hp, hk, hkb, ih]

theorem lookup_map_replace_eq (l : List (GoStr × GoStr)) (k v : GoStr)
    (hany : l.any (fun p => p.1 == k) = true) :
    List.lookup k (l.map (fun p => if p.1 == k then (k, v) else p)) = some v := by
  induction l with
  | nil => simp at hany
  | cons p rest ih =>
    obtain ⟨pk, pv⟩ := p
    simp only [beq_iff_eq] at ih
    by_cases hp : pk = k
    · simp [List.lookup_cons, hp]
    · have hr : rest.any (fun p => p.1 == k) = true := by
        simp only [List.any_cons, Bool.or_eq_true] at hany
        rcases hany with hany | hany
        · exact absurd (by simpa using hany) hp
        · exact hany
      have hkb : (k == pk) = false := by simp [Ne.symm hp]
      simp [List.lookup_cons, hp, hkb, ih hr]

theorem lookup_append_single (m : List (GoStr × GoStr)) (k v k' : GoStr)
    (hall : ∀ p ∈ m, ¬ p.1 = k) :
    List.lookup k' (m ++ [(k, v)]) = if k' = k then some v else List.lookup k' m := by
  induction m with
  | nil =>
    by_cases hk : k' = k
    · simp [List.lookup_cons, hk]
    · have hkb : (k' == k) = false := by simp [hk]
      simp [List.lookup_cons, hkb, hk]
  | cons p rest ih =>
    obtain ⟨pk, pv⟩ := p
    have hpk : ¬ pk = k := by simpa using hall (pk, pv) (by simp)
    by_cases hk' : k' = pk
    · have hne : ¬ k' = k := fun hh => hpk (by rw [← hk', hh])
      simp [List.lookup_cons, hk', hne, hpk]
    · have hb : (k' == pk) = false := by simp [hk']
      simp only [List.cons_append, List.lookup_cons, hb]
      exact ih (fun q hq => hall q (by simp [hq]))

theorem lookup_insertAssoc (m : List (GoStr × GoStr)) (k v k' : GoStr) :
    (insertAssoc m k v).lookup k' = if k' = k then some v else m.lookup k' := by
  unfold insertAssoc
  by_cases hany : m.any (fun p => p.1 == k) = true
  · rw [if_pos hany]
    by_cases hk : k' = k
    · subst hk
      rw [if_pos rfl]
      exact lookup_map_replace_eq m k' v hany
    · rw [if_neg hk]
      exact lookup_map_replace_ne m k v k' hk
  · rw [if_neg hany]
    simp only [Bool.not_eq_true, List.any_eq_false] at hany
    exact lookup_append_single m k v k' (fun p hp => by simpa using hany p hp)

theorem minNs_idem (acc : Option GoStr) (ns : GoStr) :
    minNs (some (minNs acc ns)) ns = minNs acc ns := by
  cases acc with
  | none => simp [minNs, goStrLt_irrefl]
  | some c =>
    by_cases h : goStrLt ns c = true
    · simp [minNs, h, goStrLt_irrefl]
    · simp [minNs, h]

theorem hostFold_lookup (h ns : GoStr) (hostnames : List GoStr)
    (owner : List (GoStr × GoStr)) :
    (hostnames.foldl
      (fun owner hostname =>
        match owner.lookup hostname with
        | none => insertAssoc owner hostname ns
        | some cur =>
          if goStrLt ns cur then insertAssoc owner hostname ns else owner)
      owner).lookup h =
    (if h ∈ hostnames then some (minNs (owner.lookup h) ns) else owner.lookup h) := by
  induction hostnames generalizing owner with
  | nil => simp
  | cons h0 rest ih =>
    rw [List.foldl_cons, ih]
    have hlk : (match owner.lookup h0 with
        | none => insertAssoc owner h0 ns
        | some cur =>
          if goStrLt ns cur then insertAssoc owner h0 ns else owner).lookup h =
        if h = h0 then some (minNs (owner.lookup h0) ns) else owner.lookup h := by
      cases hc : owner.lookup h0 with
      | none =>
        dsimp only
        rw [lookup_insertAssoc]
        by_cases hh : h = h0 <;> simp [hh, minNs, hc]
      | some cur =>
        dsimp only
        by_cases hlt : goStrLt ns cur = true
        · rw [if_pos hlt, lookup_insertAssoc]
          by_cases hh : h = h0 <;> simp [hh, minNs, hc, hlt]
        · rw [if_neg hlt]
          by_cases hh : h = h0 <;> simp [hh, minNs, hc, hlt]
    rw [hlk]
    by_cases hh : h = h0
    · subst hh
      rw [if_pos rfl]
      by_cases hr : h ∈ rest
      · simp [hr, minNs_idem]
      · simp [hr]
    · rw [if_neg hh]
      by_cases hr : h ∈ rest
      · simp [hr, List.mem_cons, hh]
      · simp [hr, List.mem_cons, hh]

theorem buildHostnameOwner_lookup_aux (h : GoStr) (tr : List CustomHTTPRoute) :
    ∀ owner : List (GoStr × GoStr),
    ((tr.foldl
      (fun owner route =>
        route.hostnames.foldl
          (fun owner hostname =>
            match owner.lookup hostname with
            | none => insertAssoc owner hostname route.ns
            | some cur =>
              if goStrLt route.ns cur then insertAssoc owner hostname route.ns
              else owner)
          owner)
      owner).lookup h) =
    tr.foldl (fun acc s => if h ∈ s.hostnames then some (minNs acc s.ns) else acc)
      (owner.lookup h) := by
  induction tr with
  | nil => intro owner; rfl
  | cons s rest ih =>
    intro owner
    rw [List.foldl_cons, List.foldl_cons, ih, hostFold_lookup]

theorem buildHostnameOwner_lookup (tr : List CustomHTTPRoute) (h : GoStr) :
    (buildHostnameOwner tr).lookup h = declMinFold tr h := by
  unfold buildHostnameOwner declMinFold
  rw [buildHostnameOwner_lookup_aux h tr []]
  rfl

theorem declMinFold_min_aux (h : GoStr) (tr : List CustomHTTPRoute) :
    ∀ (acc : Option GoStr) (ns : GoStr),
    tr.foldl (fun acc s => if h ∈ s.hostnames then some (minNs acc s.ns) else acc)
      acc = some ns →
    ((acc = some ns ∨ ∃ s ∈ tr, h ∈ s.hostnames ∧ s.ns = ns) ∧
     (∀ c, acc = some c → goStrLt c ns = false) ∧
     (∀ s ∈ tr, h ∈ s.hostnames → goStrLt s.ns ns = false)) := by
  induction tr with
  | nil =>
    intro acc ns hfold
    simp only [List.foldl_nil] at hfold
    refine ⟨Or.inl hfold, ?_, by simp⟩
    intro c hc
    rw [hc] at hfold
    obtain rfl := Option.some_inj.mp hfold
    exact goStrLt_irrefl _
  | cons s rest ih =>
    intro acc ns hfold
    rw [List.foldl_cons] at hfold
    obtain ⟨hsrc, haccle, hdecl⟩ := ih _ ns hfold
    by_cases hmem : h ∈ s.hostnames
    · rw [if_pos hmem] at hsrc haccle
      refine ⟨?_, ?_, ?_⟩
      · rcases hsrc with hsrc | ⟨s', hs', hh', hns'⟩
        · have hmv := Option.some_inj.mp hsrc
          cases hacc : acc with
          | none =>
            rw [hacc] at hmv
            exact Or.inr ⟨s, by simp, hmem, hmv⟩
          | some c =>
            rw [hacc] at hmv
            simp only [minNs] at hmv
            by_cases hlt : goStrLt s.ns c = true
            · rw [if_pos hlt] at hmv
              exact Or.inr ⟨s, by simp, hmem, hmv⟩
            · rw [if_neg hlt] at hmv
              exact Or.inl (by rw [hmv])
        · exact Or.inr ⟨s', by simp [hs'], hh', hns'⟩
      · intro c hc
        have hmle := haccle (minNs acc s.ns) rfl
        rw [hc] at hmle
        simp only [minNs] at hmle
        by_cases hlt : goStrLt s.ns c = true
        · rw [if_pos hlt] at hmle
          by_cases hcns : goStrLt c ns = true
          · exact absurd (goStrLt_trans s.ns c ns hlt hcns) (by simp [hmle])
          · simpa using hcns
        · rwa [if_neg hlt] at hmle
      · intro s' hs' hh'
        rcases List.mem_cons.mp hs' with rfl | hs'
        · have hmle := haccle (minNs acc s'.ns) rfl
          cases hacc : acc with
          | none => rw [hacc] at hmle; simpa [minNs] using hmle
          | some c =>
            rw [hacc] at hmle
            simp only [minNs] at hmle
            by_cases hlt : goStrLt s'.ns c = true
            · rwa [if_pos hlt] at hmle
            · rw [if_neg hlt] at hmle
              by_cases hns : goStrLt s'.ns ns = true
              · rcases goStrLt_trichotomy c s'.ns with hcs | hcs | hcs
                · exact absurd (goStrLt_trans c s'.ns ns hcs hns) (by simp [hmle])
                · rw [hcs] at hmle
                  exact absurd hns (by simp [hmle])
                · exact absurd hcs (by simp [hlt])
              · simpa using hns
        · exact hdecl s' hs' hh'
    · rw [if_neg hmem] at hsrc haccle
      refine ⟨?_, haccle, ?_⟩
      · rcases hsrc with hsrc | ⟨s', hs', hh', hns'⟩
        · exact Or.inl hsrc
        · exact Or.inr ⟨s', by simp [hs'], hh', hns'⟩
      · intro s' hs' hh'
        rcases List.mem_cons.mp hs' with rfl | hs'
        · exact absurd hh' hmem
        · exact hdecl s' hs' hh'

theorem declMinFold_isSome_aux (h : GoStr) (tr : List CustomHTTPRoute) :
    ∀ acc : Option GoStr, ((∃ s ∈ tr, h ∈ s.hostnames) ∨ acc.isSome) →
    (tr.foldl (fun acc s => if h ∈ s.hostnames then some (minNs acc s.ns) else acc)
      acc).isSome := by
  induction tr with
  | nil =>
    intro acc hd
    rcases hd with ⟨s, hs, _⟩ | hd
    · exact absurd hs (List.not_mem_nil s)
    · exact hd
  | cons s rest ih =>
    intro acc hd
    rw [List.foldl_cons]
    by_cases hmem : h ∈ s.hostnames
    · exact ih _ (Or.inr (by rw [if_pos hmem]; rfl))
    · rw [if_neg hmem]
      apply ih
      rcases hd with ⟨s', hs', hh'⟩ | hd
      · rcases List.mem_cons.mp hs' with rfl | hs'
        · exact absurd hh' hmem
        · exact Or.inl ⟨s', hs', hh'⟩
      · exact Or.inr hd

theorem lookup_map_const (hl : List GoStr) (R : List Route) (h : GoStr) :
    ((hl.map (fun hn => (hn, R))).lookup h) = if h ∈ hl then some R else none := by
  induction hl with
  | nil => simp
  | cons hn rest ih =>
    have h1 : ∀ hh : ¬ h = hn, (h == hn) = false := fun hh => by simp [hh]
    by_cases hh : h = hn <;> simp [List.lookup_cons, hh, h1, ih]

theorem expandRoutes_eq (s : CustomHTTPRoute) (m : List (GoStr × List Route))
    (hm : ExpandRoutes s = some m) :
    m = s.hostnames.map (fun hn =>
      (hn, SortRoutes ((s.rules.map (expandRule s.pathPrefixes)).flatten))) := by
  unfold ExpandRoutes at hm
  split at hm
  · exact absurd hm (by simp)
  · exact (Option.some_inj.mp hm).symm

theorem expandedFor_eq (s : CustomHTTPRoute) (h : GoStr)
    (hs : (ExpandRoutes s).isSome) :
    expandedFor s h = if h ∈ s.hostnames then
      SortRoutes ((s.rules.map (expandRule s.pathPrefixes)).flatten) else [] := by
  obtain ⟨m, hm⟩ := Option.isSome_iff_exists.mp hs
  unfold expandedFor
  rw [hm]
  dsimp only
  rw [expandRoutes_eq s m hm, lookup_map_const]
  by_cases hh : h ∈ s.hostnames <;> simp [hh]

theorem lookup_map_append_ne (l : List (GoStr × List Route)) (k : GoStr)
    (v : List Route) (h : GoStr) (hk : ¬ h = k) :
    List.lookup h (l.map (fun p => if p.1 == k then (p.1, p.2 ++ v) else p)) =
      List.lookup h l := by
  induction l with
  | nil => rfl
  | cons p rest ih =>
    obtain ⟨pk, pv⟩ := p
    simp only [beq_iff_eq] at ih
    have hkb : (h == k) = false := by simp [hk]
    by_cases hp : pk = k <;>
      simp [List.lookup_cons, hp, hk, hkb, ih]

theorem lookup_map_append_eq (l : List (GoStr × List Route)) (k : GoStr)
    (v : List Route) (hany : l.any (fun p => p.1 == k) = true) :
    List.lookup k (l.map (fun p => if p.1 == k then (p.1, p.2 ++ v) else p)) =
      some (((l.lookup k).getD []) ++ v) := by
  induction l with
  | nil => simp at hany
  | cons p rest ih =>
    obtain ⟨pk, pv⟩ := p
    simp only [beq_iff_eq] at ih
    by_cases hp : pk = k
    · simp [List.lookup_cons, hp]
    · have hr : rest.any (fun p => p.1 == k) = true := by
        simp only [List.any_cons, Bool.or_eq_true] at hany
        rcases hany with hany | hany
        · exact absurd (by simpa using hany) hp
        · exact hany
      have hkb : (k == pk) = false := by simp [Ne.symm hp]
      simp [List.lookup_cons, hp, hkb, ih hr]

theorem lookup_eq_none_of_no_key (m : List (GoStr × List Route)) (k : GoStr)
    (hall : ∀ p ∈ m, ¬ p.1 = k) : List.lookup k m = none := by
  induction m with
  | nil => rfl
  | cons p rest ih =>
    obtain ⟨pk, pv⟩ := p
    have hpk : ¬ pk = k := by simpa using hall (pk, pv) (by simp)
    have hkb : (k == pk) = false := by simp [Ne.symm hpk]
    simp only [List.lookup_cons, hkb]
    exact ih (fun q hq => hall q (by simp [hq]))

theorem lookup_append_single_rt (m : List (GoStr × List Route)) (k : GoStr)
    (v : List Route) (h : GoStr) (hall : ∀ p ∈ m, ¬ p.1 = k) :
    List.lookup h (m ++ [(k, v)]) = if h = k then some v else List.lookup h m := by
  induction m with
  | nil =>
    by_cases hk : h = k
    · simp [List.lookup_cons, hk]
    · have hkb : (h == k) = false := by simp [hk]
      simp [List.lookup_cons, hkb, hk]
  | cons p rest ih =>
    obtain ⟨pk, pv⟩ := p
    have hpk : ¬ pk = k := by simpa using hall (pk, pv) (by simp)
    by_cases hk' : h = pk
    · have hne : ¬ h = k := fun hh => hpk (by rw [← hk', hh])
      simp [List.lookup_cons, hk', hne, hpk]
    · have hb : (h == pk) = false := by simp [hk']
      simp only [List.cons_append, List.lookup_cons, hb]
      exact ih (fun q hq => hall q (by simp [hq]))

theorem lookup_appendAtKey (hosts : List (GoStr × List Route)) (k : GoStr)
    (v : List Route) (h : GoStr) :
    (appendAtKey hosts k v).lookup h =
      if h = k then some (((hosts.lookup k).getD []) ++ v) else hosts.lookup h := by
  unfold appendAtKey
  by_cases hany : hosts.any (fun p => p.1 == k) = true
  · rw [if_pos hany]
    by_cases hk : h = k
    · subst hk
      rw [if_pos rfl]
      exact lookup_map_append_eq hosts h v hany
    · rw [if_neg hk]
      exact lookup_map_append_ne hosts k v h hk
  · rw [if_neg hany]
    simp only [Bool.not_eq_true, List.any_eq_false] at hany
    have hall : ∀ p ∈ hosts, ¬ p.1 = k := fun p hp => by simpa using hany p hp
    rw [lookup_append_single_rt hosts k v h hall]
    by_cases hk : h = k
    · rw [if_pos hk, if_pos hk, lookup_eq_none_of_no_key hosts k hall]
      rfl
    · rw [if_neg hk, if_neg hk]

/-- The per-host contributions of one config (in entry order). -/
def entriesAt (config : List (GoStr × List Route)) (h : GoStr) : List (List Route) :=
  (config.filter (fun p => p.1 == h)).map (fun p => p.2)

theorem mergeFoldConfig_lookup (h : GoStr) (config : List (GoStr × List Route)) :
    ∀ acc : List (GoStr × List Route),
    ((config.foldl (fun hosts p => appendAtKey hosts p.1 p.2) acc).lookup h) =
      (if (entriesAt config h).isEmpty then acc.lookup h
       else some (((acc.lookup h).getD []) ++ (entriesAt config h).flatten)) := by
  induction config with
  | nil => intro acc; simp [entriesAt]
  | cons p rest ih =>
    intro acc
    obtain ⟨pk, pv⟩ := p
    rw [List.foldl_cons, ih]
    by_cases hp : pk = h
    · subst hp
      have he : entriesAt ((pk, pv) :: rest) pk = pv :: entriesAt rest pk := by
        simp [entriesAt]
      rw [he]
      rw [lookup_appendAtKey acc pk pv pk |>.trans (if_pos rfl)]
      by_cases hre : (entriesAt rest pk).isEmpty
      · have hre' : entriesAt rest pk = [] := List.isEmpty_iff.mp hre
        simp [hre, hre']
      · simp [hre]
    · have hb : (pk == h) = false := by simp [hp]
      have he : entriesAt ((pk, pv) :: rest) h = entriesAt rest h := by
        simp [entriesAt, hb]
      rw [he]
      have hl : (appendAtKey acc pk pv).lookup h = acc.lookup h := by
        rw [lookup_appendAtKey]
        exact if_neg (fun hh => hp (hh.symm))
      rw [hl]

theorem mergeFoldAll_lookup (h : GoStr) (configs : List (List (GoStr × List Route))) :
    ∀ acc : List (GoStr × List Route),
    ((configs.foldl
      (fun result config =>
        config.foldl (fun hosts p => appendAtKey hosts p.1 p.2) result)
      acc).lookup h) =
      (if ((configs.map (fun c => entriesAt c h)).flatten).isEmpty then acc.lookup h
       else some (((acc.lookup h).getD []) ++
         ((configs.map (fun c => entriesAt c h)).flatten).flatten)) := by
  induction configs with
  | nil => intro acc; simp
  | cons c rest ih =>
    intro acc
    rw [List.foldl_cons, ih, mergeFoldConfig_lookup]
    by_cases hc : (entriesAt c h).isEmpty
    · have : entriesAt c h = [] := List.isEmpty_iff.mp hc
      simp [this]
    · have hcne : entriesAt c h ≠ [] := fun hh => hc (by simp [hh])
      by_cases hr : ((rest.map (fun c => entriesAt c h)).flatten).isEmpty
      · have : (rest.map (fun c => entriesAt c h)).flatten = [] := List.isEmpty_iff.mp hr
        simp [hc, this, hcne]
      · have : (rest.map (fun c => entriesAt c h)).flatten ≠ [] :=
          fun hh => hr (by simp [hh])
        simp [hc, this, hcne]

theorem lookup_map_sortValues (l : List (GoStr × List Route)) (h : GoStr) :
    ((l.map (fun p => (p.1, SortRoutes p.2))).lookup h) =
      (l.lookup h).map SortRoutes := by
  induction l with
  | nil => rfl
  | cons p rest ih =>
    obtain ⟨pk, pv⟩ := p
    by_cases hp : h = pk
    · simp [List.lookup_cons, hp, ih]
    · have hb : (h == pk) = false := by simp [hp]
      simp [List.lookup_cons, hb, ih]

theorem entriesAt_filter_map (hl : List GoStr) (R : List Route)
    (pred : GoStr × List Route → Bool) (h : GoStr) (hnd : hl.Nodup) :
    entriesAt ((hl.map (fun hn => (hn, R))).filter pred) h =
      if h ∈ hl ∧ pred (h, R) = true then [R] else [] := by
  induction hl with
  | nil => simp [entriesAt]
  | cons hn rest ih =>
    obtain ⟨hnotin, hnd'⟩ := List.nodup_cons.mp hnd
    rw [List.map_cons, List.filter_cons]
    by_cases hp : pred (hn, R) = true
    · rw [if_pos hp]
      by_cases hh : h = hn
      · subst hh
        have he : entriesAt ((h, R) :: (rest.map (fun hn => (hn, R))).filter pred) h =
            R :: entriesAt ((rest.map (fun hn => (hn, R))).filter pred) h := by
          simp [entriesAt]
        rw [he, ih hnd']
        simp [hnotin, hp]
      · have hb : (hn == h) = false := by simp [Ne.symm hh]
        have he : entriesAt ((hn, R) :: (rest.map (fun hn => (hn, R))).filter pred) h =
            entriesAt ((rest.map (fun hn => (hn, R))).filter pred) h := by
          simp [entriesAt, hb]
        rw [he, ih hnd']
        simp [List.mem_cons, hh]
    · rw [if_neg hp, ih hnd']
      by_cases hh : h = hn
      · subst hh
        simp [hp, hnotin]
      · simp [List.mem_cons, hh]

theorem filterMap_expand_eq (tr : List CustomHTTPRoute)
    (owner : List (GoStr × GoStr))
    (hexp : ∀ s ∈ tr, (ExpandRoutes s).isSome) :
    (tr.filterMap fun route =>
      match ExpandRoutes route with
      | none => none
      | some expanded =>
        some (expanded.filter fun p => owner.lookup p.1 == some route.ns)) =
    tr.map (fun route =>
      ((ExpandRoutes route).getD []).filter fun p =>
        owner.lookup p.1 == some route.ns) := by
  induction tr with
  | nil => rfl
  | cons s rest ih =>
    obtain ⟨m, hm⟩ := Option.isSome_iff_exists.mp (hexp s (by simp))
    rw [List.filterMap_cons, List.map_cons, hm]
    dsimp only
    rw [ih (fun q hq => hexp q (by simp [hq]))]
    rfl

theorem flatten_flatten_map {α β : Type} (xs : List α) (g : α → List (List β)) :
    ((xs.map g).flatten).flatten = (xs.map (fun x => (g x).flatten)).flatten := by
  induction xs with
  | nil => rfl
  | cons x rest ih =>
    simp only [List.map_cons, List.flatten_cons, List.flatten_append, ih]

/-- **C6.** Hostname ownership during aggregation.  For the non-deleting
specs of a target and a declared hostname `h` (specs assumed to expand
within the route cap and to list distinct hostnames), there is a namespace
`ns` such that: `ns` is declared for `h` and no declarer of `h` has a
lexicographically smaller namespace; the ownership map assigns `ns` to `h`;
and the aggregated table entry for `h` is, as a multiset, exactly the union
of the expanded routes for `h` of the specs in namespace `ns` — expansions
of `h` from specs in any other namespace are dropped. -/
theorem C6_hostname_ownership (specs : List CustomHTTPRoute) (t h : GoStr)
    (hexp : ∀ s ∈ targetSpecs specs t, (ExpandRoutes s).isSome)
    (hnd : ∀ s ∈ targetSpecs specs t, s.hostnames.Nodup)
    (hdecl : ∃ s ∈ targetSpecs specs t, h ∈ s.hostnames) :
    ∃ ns,
      ((∃ s ∈ targetSpecs specs t, h ∈ s.hostnames ∧ s.ns = ns) ∧
       (∀ s ∈ targetSpecs specs t, h ∈ s.hostnames → goStrLt s.ns ns = false)) ∧
      (buildHostnameOwner (targetSpecs specs t)).lookup h = some ns ∧
      (hostRoutesOf (aggregateTarget (targetSpecs specs t)) h).Perm
        (((targetSpecs specs t).map
          (fun s => if s.ns = ns then expandedFor s h else [])).flatten) := by
  have hsome : (declMinFold (targetSpecs specs t) h).isSome :=
    declMinFold_isSome_aux h _ none (Or.inl hdecl)
  obtain ⟨ns, hns⟩ := Option.isSome_iff_exists.mp hsome
  obtain ⟨hsrc, -, hmin⟩ := declMinFold_min_aux h _ none ns hns
  have hsrc' : ∃ s ∈ targetSpecs specs t, h ∈ s.hostnames ∧ s.ns = ns := by
    rcases hsrc with hsrc | hsrc
    · exact absurd hsrc (by simp)
    · exact hsrc
  have howner : (buildHostnameOwner (targetSpecs specs t)).lookup h = some ns := by
    rw [buildHostnameOwner_lookup]; exact hns
  refine ⟨ns, ⟨hsrc', hmin⟩, howner, ?_⟩
  unfold aggregateTarget
  rw [filterMap_expand_eq _ _ hexp]
  have hkey : ∀ configs : List (List (GoStr × List Route)),
      hostRoutesOf (MergeRoutesConfig configs) h =
        (((configs.foldl
          (fun result config =>
            config.foldl (fun hosts p => appendAtKey hosts p.1 p.2) result)
          []).lookup h).map SortRoutes).getD [] := by
    intro configs
    unfold hostRoutesOf MergeRoutesConfig
    rw [lookup_map_sortValues]
  rw [hkey, mergeFoldAll_lookup]
  have hent : ((targetSpecs specs t).map (fun route =>
        ((ExpandRoutes route).getD []).filter fun p =>
          (buildHostnameOwner (targetSpecs specs t)).lookup p.1 ==
            some route.ns)).map (fun c => entriesAt c h) =
      (targetSpecs specs t).map (fun s =>
        if h ∈ s.hostnames ∧ s.ns = ns then
          [SortRoutes ((s.rules.map (expandRule s.pathPrefixes)).flatten)]
        else []) := by
    rw [List.map_map]
    refine List.map_congr_left fun s hs => ?_
    obtain ⟨m, hm⟩ := Option.isSome_iff_exists.mp (hexp s hs)
    show entriesAt (((ExpandRoutes s).getD []).filter _) h = _
    rw [hm]
    show entriesAt (m.filter _) h = _
    rw [expandRoutes_eq s m hm,
      entriesAt_filter_map _ _ _ _ (hnd s hs), howner]
    by_cases hc1 : h ∈ s.hostnames
    · by_cases hc2 : s.ns = ns
      · simp [hc1, hc2]
      · have : ¬ ((some ns == some s.ns) = true) := by
          simp only [beq_iff_eq, Option.some_inj]
          exact fun hh => hc2 hh.symm
        simp [hc1, hc2, this]
    · simp [hc1]
  rw [hent]
  have hrhs : ((targetSpecs specs t).map
        (fun s => if s.ns = ns then expandedFor s h else [])) =
      (targetSpecs specs t).map (fun s =>
        if h ∈ s.hostnames ∧ s.ns = ns then
          SortRoutes ((s.rules.map (expandRule s.pathPrefixes)).flatten)
        else []) := by
    refine List.map_congr_left fun s hs => ?_
    rw [expandedFor_eq s h (hexp s hs)]
    by_cases hc1 : h ∈ s.hostnames <;> by_cases hc2 : s.ns = ns <;>
      simp [hc1, hc2]
  rw [hrhs]
  have hflat : (((targetSpecs specs t).map (fun s =>
        if h ∈ s.hostnames ∧ s.ns = ns then
          [SortRoutes ((s.rules.map (expandRule s.pathPrefixes)).flatten)]
        else [])).flatten).flatten =
      ((targetSpecs specs t).map (fun s =>
        if h ∈ s.hostnames ∧ s.ns = ns then
          SortRoutes ((s.rules.map (expandRule s.pathPrefixes)).flatten)
        else [])).flatten := by
    rw [flatten_flatten_map]
    congr 1
    refine List.map_congr_left fun s _ => ?_
    by_cases hc : h ∈ s.hostnames ∧ s.ns = ns <;> simp [hc]
  by_cases hemp : (((targetSpecs specs t).map (fun s =>
      if h ∈ s.hostnames ∧ s.ns = ns then
        [SortRoutes ((s.rules.map (expandRule s.pathPrefixes)).flatten)]
      else [])).flatten).isEmpty
  · rw [if_pos hemp]
    have he : (((targetSpecs specs t).map (fun s =>
        if h ∈ s.hostnames ∧ s.ns = ns then
          [SortRoutes ((s.rules.map (expandRule s.pathPrefixes)).flatten)]
        else [])).flatten) = [] := List.isEmpty_iff.mp hemp
    rw [← hflat, he]
    exact List.Perm.refl _
  · rw [if_neg hemp, ← hflat]
    show (SortRoutes _).Perm _
    refine (List.mergeSort_perm _ _).trans ?_
    simp

/-- Witness scenario for C6 (the spec's S5): specs in namespaces `ns2` and
`ns1` both declare `example.com` for target `t`. -/
def c6specA : CustomHTTPRoute :=
  { ns := str "ns2", uid := 1, deleting := false, targetName := str "t",
    hostnames := [str "example.com"], pathPrefixes := none,
    rules := [Rule.mk [PathMatch.mk (str "/a") .exact 0] []
      [BackendRef.mk (str "svca") (str "ns2") 80] none] }

def c6specB : CustomHTTPRoute :=
  { ns := str "ns1", uid := 2, deleting := false, targetName := str "t",
    hostnames := [str "example.com"], pathPrefixes := none,
    rules := [Rule.mk [PathMatch.mk (str "/b") .exact 0] []
      [BackendRef.mk (str "svcb") (str "ns1") 80] none] }

def c6specs : List CustomHTTPRoute := [c6specA, c6specB]

theorem C6_hostname_ownership_witness :
    (∀ s ∈ targetSpecs c6specs (str "t"), (ExpandRoutes s).isSome) ∧
    (∀ s ∈ targetSpecs c6specs (str "t"), s.hostnames.Nodup) ∧
    (∃ s ∈ targetSpecs c6specs (str "t"), (str "example.com") ∈ s.hostnames) ∧
    (∃ ns,
      ((∃ s ∈ targetSpecs c6specs (str "t"),
          (str "example.com") ∈ s.hostnames ∧ s.ns = ns) ∧
       (∀ s ∈ targetSpecs c6specs (str "t"),
          (str "example.com") ∈ s.hostnames → goStrLt s.ns ns = false)) ∧
      (buildHostnameOwner (targetSpecs c6specs (str "t"))).lookup
        (str "example.com") = some ns ∧
      (hostRoutesOf (aggregateTarget (targetSpecs c6specs (str "t")))
        (str "example.com")).Perm
        (((targetSpecs c6specs (str "t")).map
          (fun s => if s.ns = ns then expandedFor s (str "example.com") else [])).flatten)) :=
  ⟨by decide, by decide, by decide,
    C6_hostname_ownership c6specs (str "t") (str "example.com")
      (by decide) (by decide) (by decide)⟩

/-! ## `sync.go`: partitioning (claim C7)

`json.Marshal` / `MarshalIndent` (via `RoutesConfig.ToJSON`, which uses
`MarshalIndent(rc, "", "  ")`) are modelled for route rows carrying the
serialized fields of the `routes.Route` struct (`path`, `type`, `backend`,
`priority`; the rows involved carry no actions) over strings needing no
JSON escaping.  Map keys are serialized in sorted order, as Go does. -/

/-- `maxConfigMapSize` (`900 * 1024`, "900KB to leave margin for
metadata"). -/
def maxConfigMapSize : Nat := 900 * 1024

/-- `json.Marshal` of one route (compact). -/
def jsonMarshalRoute (r : Route) : GoStr :=
  str "\x7b\"path\":\"" ++ r.path ++ str "\",\"type\":\"" ++ routeTypeStr r.ty ++
  str "\",\"backend\":\"" ++ r.backend ++ str "\",\"priority\":" ++ goItoa r.priority ++
  str "\x7d"

/-- One route object as `MarshalIndent(rc, "", "  ")` renders it (array
element at nesting depth 3). -/
def routeJSONIndent (r : Route) : GoStr :=
  str "      \x7b\n        \"path\": \"" ++ r.path ++ str "\",\n        \"type\": \"" ++
  routeTypeStr r.ty ++ str "\",\n        \"backend\": \"" ++ r.backend ++
  str "\",\n        \"priority\": " ++ goItoa r.priority ++ str "\n      \x7d"

/-- One host's block inside the `hosts` object. -/
def hostBlockIndent (p : GoStr × List Route) : GoStr :=
  str "    \"" ++ p.1 ++ str "\": [\n" ++
    goJoin (str ",\n") (p.2.map routeJSONIndent) ++ str "\n    ]"

/-- `RoutesConfig.ToJSON` (`MarshalIndent` with two-space indent), for
configs whose route lists are non-empty. -/
def toJSONConfig (config : RoutesConfig) : GoStr :=
  str "\x7b\n  \"version\": " ++ goItoa config.version ++ str ",\n  \"hosts\": " ++
  (if (config.hosts.mergeSort (fun a b => !goStrLt b.1 a.1)).isEmpty then
    str "\x7b\x7d"
  else
    str "\x7b\n" ++
      goJoin (str ",\n")
        ((config.hosts.mergeSort (fun a b => !goStrLt b.1 a.1)).map hostBlockIndent) ++
      str "\n  \x7d") ++
  str "\n\x7d"

/-- `ConfigMapPartition`. -/
structure ConfigMapPartition where
  name : GoStr
  target : GoStr
  data : GoStr
deriving DecidableEq, Repr

/-- `partitionName`: `customrouter-routes-<target>-<index>`. -/
def partitionName (target : GoStr) (index : Nat) : GoStr :=
  str "customrouter-routes-" ++ target ++ str "-" ++ goItoa (index : Int)

/-- `baseSize` in `splitHostRoutes`:
`len(fmt.Sprintf(\x60{"version":1,"hosts":{"%s":[]}}\x60, host))`. -/
def baseSizeOf (host : GoStr) : Nat :=
  (str "\x7b\"version\":1,\"hosts\":\x7b\"" ++ host ++ str "\":[]\x7d\x7d").length

/-- The loop of `splitHostRoutes`; state: remaining routes, the current
batch, its estimated size (compact bytes + one comma per route), the next
partition index, and the flushed partitions. -/
def shrLoop (target host : GoStr) :
    List Route → List Route → Nat → Nat → List ConfigMapPartition →
    List ConfigMapPartition
  | [], currentRoutes, _, partIndex, acc =>
    acc ++ (if currentRoutes.isEmpty then [] else
      [⟨partitionName target partIndex, target,
        toJSONConfig ⟨1, [(host, currentRoutes)]⟩⟩])
  | route :: rest, currentRoutes, currentSize, partIndex, acc =>
    if currentSize + ((jsonMarshalRoute route).length + 1) + baseSizeOf host >
          maxConfigMapSize ∧ ¬ currentRoutes.isEmpty then
      shrLoop target host rest [route] ((jsonMarshalRoute route).length + 1)
        (partIndex + 1)
        (acc ++ [⟨partitionName target partIndex, target,
          toJSONConfig ⟨1, [(host, currentRoutes)]⟩⟩])
    else
      shrLoop target host rest (currentRoutes ++ [route])
        (currentSize + ((jsonMarshalRoute route).length + 1)) partIndex acc

/-- `splitHostRoutes`: split one host's routes across partitions. -/
def splitHostRoutes (target host : GoStr) (hostRoutes : List Route)
    (startIndex : Nat) : List ConfigMapPartition :=
  shrLoop target host hostRoutes [] 0 startIndex []

/-- The loop of `splitByHosts` over the alphabetically sorted hosts;
state: remaining hosts, the current partition's hosts, its size estimate,
the next partition index, and the flushed partitions. -/
def sbhLoop (target : GoStr) :
    List (GoStr × List Route) → List (GoStr × List Route) → Nat → Nat →
    List ConfigMapPartition → List ConfigMapPartition
  | [], current, _, partIndex, acc =>
    acc ++ (if current.isEmpty then [] else
      [⟨partitionName target partIndex, target, toJSONConfig ⟨1, current⟩⟩])
  | (host, hostRoutes) :: rest, current, currentSize, partIndex, acc =>
    if (toJSONConfig ⟨1, [(host, hostRoutes)]⟩).length > maxConfigMapSize then
      if ¬ current.isEmpty then
        sbhLoop target rest [] 0
          (partIndex + 1 + (splitHostRoutes target host hostRoutes (partIndex + 1)).length)
          ((acc ++ [⟨partitionName target partIndex, target, toJSONConfig ⟨1, current⟩⟩]) ++
            splitHostRoutes target host hostRoutes (partIndex + 1))
      else
        sbhLoop target rest [] 0
          (partIndex + (splitHostRoutes target host hostRoutes partIndex).length)
          (acc ++ splitHostRoutes target host hostRoutes partIndex)
    else if currentSize + (toJSONConfig ⟨1, [(host, hostRoutes)]⟩).length >
          maxConfigMapSize ∧ ¬ current.isEmpty then
      sbhLoop target rest [(host, hostRoutes)]
        (toJSONConfig ⟨1, [(host, hostRoutes)]⟩).length (partIndex + 1)
        (acc ++ [⟨partitionName target partIndex, target, toJSONConfig ⟨1, current⟩⟩])
    else
      sbhLoop target rest (current ++ [(host, hostRoutes)])
        (currentSize + (toJSONConfig ⟨1, [(host, hostRoutes)]⟩).length) partIndex acc

/-- `splitByHosts`. -/
def splitByHosts (target : GoStr) (config : RoutesConfig) :
    List ConfigMapPartition :=
  sbhLoop target (config.hosts.mergeSort (fun a b => !goStrLt b.1 a.1)) [] 0 0 []

/-- `partitionConfig`: one partition when the whole serialized config fits,
otherwise split by hosts. -/
def partitionConfig (target : GoStr) (config : RoutesConfig) :
    List ConfigMapPartition :=
  if (toJSONConfig config).length ≤ maxConfigMapSize then
    [⟨partitionName target 0, target, toJSONConfig config⟩]
  else splitByHosts target config

theorem goJoin_length_replicate (sep x : GoStr) (m : Nat) :
    (goJoin sep (List.replicate (m + 1) x)).length =
      (m + 1) * x.length + m * sep.length := by
  induction m with
  | zero => simp [List.replicate, goJoin]
  | succ k ih =>
    have h2 : List.replicate (k + 1 + 1) x = x :: x :: List.replicate k x := rfl
    have harm : goJoin sep (x :: x :: List.replicate k x) =
        x ++ sep ++ goJoin sep (x :: List.replicate k x) := rfl
    have h3 : (x :: List.replicate k x) = List.replicate (k + 1) x := rfl
    rw [h2, harm, h3, List.length_append, List.length_append, ih]
    ring

theorem toJSONConfig_single_length (host : GoStr) (rs : List Route) :
    (toJSONConfig ⟨1, [(host, rs)]⟩).length =
      53 + host.length + (goJoin (str ",\n") (rs.map routeJSONIndent)).length := by
  unfold toJSONConfig hostBlockIndent
  simp only [List.mergeSort_singleton]
  rw [if_neg (by simp)]
  simp only [List.map_cons, List.map_nil]
  have hjs : goJoin (str ",\n")
      [str "    \"" ++ host ++ str "\": [\n" ++
        goJoin (str ",\n") (rs.map routeJSONIndent) ++ str "\n    ]"] =
      str "    \"" ++ host ++ str "\": [\n" ++
        goJoin (str ",\n") (rs.map routeJSONIndent) ++ str "\n    ]" := rfl
  rw [hjs]
  simp only [List.length_append]
  have e1 : (str "\x7b\n  \"version\": ").length = 15 := by decide
  have e2 : (goItoa (1 : Int)).length = 1 := by decide
  have e3 : (str ",\n  \"hosts\": ").length = 13 := by decide
  have e4 : (str "\x7b\n").length = 2 := by decide
  have e5 : (str "    \"").length = 5 := by decide
  have e6 : (str "\": [\n").length = 5 := by decide
  have e7 : (str "\n    ]").length = 6 := by decide
  have e8 : (str "\n  \x7d").length = 4 := by decide
  have e9 : (str "\n\x7d").length = 2 := by decide
  omega

/-- The failing route row: `{path: /a, type: prefix, backend: b:80,
priority: 1000}`, no actions. -/
def bugRoute : Route :=
  { path := str "/a", ty := .pfx, backend := str "b:80", priority := 1000,
    actions := [] }

theorem shrLoop_fill (target host : GoStr) (r : Route) (n : Nat) :
    ∀ (m : Nat) (tail : List Route) (partIndex : Nat)
      (acc : List ConfigMapPartition),
    (m + n) * ((jsonMarshalRoute r).length + 1) + baseSizeOf host ≤
        maxConfigMapSize →
    shrLoop target host (List.replicate n r ++ tail) (List.replicate m r)
      (m * ((jsonMarshalRoute r).length + 1)) partIndex acc =
    shrLoop target host tail (List.replicate (m + n) r)
      ((m + n) * ((jsonMarshalRoute r).length + 1)) partIndex acc := by
  induction n with
  | zero => intro m tail partIndex acc _; rfl
  | succ k ih =>
    intro m tail partIndex acc hle
    rw [List.replicate_succ, List.cons_append]
    simp only [shrLoop]
    rw [if_neg ?hcond]
    case hcond =>
      rintro ⟨hgt, -⟩
      have hmono : (m + 1) * ((jsonMarshalRoute r).length + 1) ≤
          (m + (k + 1)) * ((jsonMarshalRoute r).length + 1) :=
        Nat.mul_le_mul_right _ (by omega)
      have hms : (m + 1) * ((jsonMarshalRoute r).length + 1) =
          m * ((jsonMarshalRoute r).length + 1) +
            ((jsonMarshalRoute r).length + 1) := by ring
      omega
    have hrep : List.replicate m r ++ [r] = List.replicate (m + 1) r :=
      (List.replicate_succ' m r).symm
    have hsz : m * ((jsonMarshalRoute r).length + 1) +
        ((jsonMarshalRoute r).length + 1) =
        (m + 1) * ((jsonMarshalRoute r).length + 1) := by ring
    rw [hrep, hsz]
    have hidx : m + 1 + k = m + (k + 1) := by omega
    rw [ih (m + 1) tail partIndex acc (by rw [hidx]; exact hle), hidx]

theorem shr_replicate (target host : GoStr) (r : Route) (M : Nat)
    (hM1 : 1 ≤ M)
    (hfits : M * ((jsonMarshalRoute r).length + 1) + baseSizeOf host ≤
      maxConfigMapSize)
    (hover : M * ((jsonMarshalRoute r).length + 1) +
      ((jsonMarshalRoute r).length + 1) + baseSizeOf host > maxConfigMapSize)
    (startIndex : Nat) :
    splitHostRoutes target host (List.replicate (M + 1) r) startIndex =
      [⟨partitionName target startIndex, target,
        toJSONConfig ⟨1, [(host, List.replicate M r)]⟩⟩,
       ⟨partitionName target (startIndex + 1), target,
        toJSONConfig ⟨1, [(host, [r])]⟩⟩] := by
  unfold splitHostRoutes
  rw [List.replicate_succ']
  have hfill := shrLoop_fill target host r M 0 [r] startIndex []
    (by simpa using hfits)
  simp only [List.replicate, Nat.zero_mul, Nat.zero_add] at hfill
  rw [hfill]
  simp only [shrLoop]
  rw [if_pos ?hcond]
  case hcond =>
    refine ⟨by omega, ?_⟩
    have : List.replicate M r = r :: List.replicate (M - 1) r := by
      cases M with
      | zero => omega
      | succ k => rfl
    rw [this]
    simp
  simp

theorem partitionConfig_single_oversized (target host : GoStr) (rs : List Route)
    (hbig : (toJSONConfig ⟨1, [(host, rs)]⟩).length > maxConfigMapSize) :
    partitionConfig target ⟨1, [(host, rs)]⟩ =
      splitHostRoutes target host rs 0 := by
  unfold partitionConfig
  rw [if_neg (by omega)]
  unfold splitByHosts
  simp only [List.mergeSort_singleton]
  simp only [sbhLoop]
  rw [if_pos hbig]
  simp

theorem goJoinIndent_replicate_len (n : Nat) :
    (goJoin (str ",\n")
        ((List.replicate (n + 1) bugRoute).map routeJSONIndent)).length =
      (n + 1) * 115 + n * 2 := by
  rw [List.map_replicate]
  have h := goJoin_length_replicate (str ",\n") (routeJSONIndent bugRoute) n
  have h1 : (routeJSONIndent bugRoute).length = 115 := by decide
  have h2 : (str ",\n").length = 2 := by decide
  rw [h1, h2] at h
  exact h

theorem toJSON_bug_14627_len :
    (toJSONConfig ⟨1, [(str "big.example.com",
        List.replicate 14627 bugRoute)]⟩).length = 1711425 := by
  rw [toJSONConfig_single_length]
  have h : (14626 : Nat) + 1 = 14627 := by norm_num
  have hj := goJoinIndent_replicate_len 14626
  rw [h] at hj
  rw [hj]
  decide

theorem toJSON_bug_14628_len :
    (toJSONConfig ⟨1, [(str "big.example.com",
        List.replicate 14628 bugRoute)]⟩).length = 1711542 := by
  rw [toJSONConfig_single_length]
  have h : (14627 : Nat) + 1 = 14628 := by norm_num
  have hj := goJoinIndent_replicate_len 14627
  rw [h] at hj
  rw [hj]
  decide

/-- C7: REFUTED (code bug).  The claim says every published partition's
payload is at most `900 * 1024` bytes.  `splitHostRoutes` sizes batches
using compact `json.Marshal` lengths (plus one comma per route), but the
payload stored in the partition is the indented `ToJSON` rendering, which
is larger per route (115 + 2 bytes here versus 62 + 1 compact).  With one
host `big.example.com` holding 14628 identical routes
`{path: "/a", type: prefix, backend: "b:80", priority: 1000}`, the first
flushed partition packs 14627 routes (compact estimate 921545 ≤ 921600)
but its stored payload is 1711425 bytes > 900 * 1024. -/
theorem C7_partition_size_bug :
    ∃ p ∈ partitionConfig (str "gw")
        ⟨1, [(str "big.example.com", List.replicate 14628 bugRoute)]⟩,
      maxConfigMapSize < p.data.length := by
  have hsr : (jsonMarshalRoute bugRoute).length + 1 = 63 := by decide
  have hb : baseSizeOf (str "big.example.com") = 44 := by decide
  have hbig : (toJSONConfig ⟨1, [(str "big.example.com",
      List.replicate 14628 bugRoute)]⟩).length > maxConfigMapSize := by
    rw [toJSON_bug_14628_len]
    norm_num [maxConfigMapSize]
  have hpc : partitionConfig (str "gw")
      ⟨1, [(str "big.example.com", List.replicate 14628 bugRoute)]⟩ =
      splitHostRoutes (str "gw") (str "big.example.com")
        (List.replicate 14628 bugRoute) 0 :=
    partitionConfig_single_oversized _ _ _ hbig
  have hrepl : List.replicate 14628 bugRoute =
      List.replicate (14627 + 1) bugRoute := rfl
  have hshr := shr_replicate (str "gw") (str "big.example.com") bugRoute 14627
    (by norm_num)
    (by rw [hsr, hb]; norm_num [maxConfigMapSize])
    (by rw [hsr, hb]; norm_num [maxConfigMapSize])
    0
  refine ⟨⟨partitionName (str "gw") 0, str "gw",
      toJSONConfig ⟨1, [(str "big.example.com",
        List.replicate 14627 bugRoute)]⟩⟩, ?_, ?_⟩
  · rw [hpc, hrepl, hshr]
    exact List.mem_cons_self _ _
  · show maxConfigMapSize < (toJSONConfig ⟨1, [(str "big.example.com",
        List.replicate 14627 bugRoute)]⟩).length
    rw [toJSON_bug_14627_len]
    norm_num [maxConfigMapSize]

end CR
